import Mathlib

/-!
# Persistable state machine (package `persistablestatemachine`)

A shallow embedding of `state_machine.go` and of the objects of
`state_machine_test.go`.  The definitions of both packages come first (those
of package `statepattern` follow the ones of this package), then the theorems.

Modelling conventions

* Go objects live in a program state `W` (the heap, the repository content,
  whatever handlers keep).  Every method is a function on `W` that returns
  the new program state together with its Go results.
* An interface value is a handle: `P` for `StateData` values (in the test a
  pointer to a `FakeStateData`), `H` for `StateHandler` values.  The methods
  behind a handle are given by a method table (`StateData`, `StateHandler`).
  A `StateRepository` value is carried as the pair of its two methods.
* A nil handler is `none`; the `Data` of a context is never nil, and panics
  are not modelled.
* `GetState` only reads the program state.  A handler gets the context as a
  value: it may change the program state (the record included, through
  `TransitTo`, `SetState` or directly), not the fields of the context.
* The `context.Context` argument is not modelled.
* The unbounded `for` loop of `StateContext.Process` takes a fuel argument;
  `none` means that the fuel ran out before the loop returned.
* `Process` and `FindAndRecover` additionally return the log of the `Save`
  calls and handler invocations they performed, in order.
-/

namespace persistablestatemachine

/-! ## Go values -/

/-- Go `error` values: `*IllegalTransitError` (the only error type the package
declares) or any other error, identified by its message. -/
inductive GoError where
  | IllegalTransitError (SrcState DstState : String)
  | errorString (msg : String)
  deriving DecidableEq, Repr

/-- A Go `map[string]V`.  `none` is the nil map; a non-nil map is the list of
its key/value pairs, and the value of a key is that of its first pair. -/
def GoMap (V : Type) : Type := Option (List (String × V))

namespace GoMap

variable {V : Type}

/-- The comma-ok lookup `v, ok := m[k]` as an option. -/
def get? (m : GoMap V) (k : String) : Option V :=
  match m with
  | none => none
  | some kvs => kvs.lookup k

/-- Go `m[k]`: the zero value of `V` when `k` is absent or `m` is nil. -/
def index [Inhabited V] (m : GoMap V) (k : String) : V :=
  (m.get? k).getD default

/-- The `exist` flag of `_, exist := m[k]`. -/
def exist (m : GoMap V) (k : String) : Bool :=
  (m.get? k).isSome

/-- The key/value pairs of the map (none for the nil map). -/
def entries (m : GoMap V) : List (String × V) :=
  match m with
  | none => []
  | some kvs => kvs

/-- The keys of the map. -/
def keys (m : GoMap V) : List String :=
  m.entries.map Prod.fst

/-- Go `m[k] = v` on a non-nil map (a nil map becomes a one-entry map here;
callers below only assign to maps created with `make`). -/
def set (m : GoMap V) (k : String) (v : V) : GoMap V :=
  match m with
  | none => some [(k, v)]
  | some kvs =>
    if (kvs.lookup k).isSome then
      some (kvs.map (fun kv => if kv.1 == k then (k, v) else kv))
    else some (kvs ++ [(k, v)])

end GoMap

/-! ## Types of `state_machine.go` -/

/-- Method table of the `StateData` interface for record handles `P`. -/
structure StateData (W P : Type) where
  GetState : P → W → String
  SetState : P → String → W → W

/-- A `StateRepository` interface value. -/
structure StateRepository (W P : Type) where
  Save : P → W → W × Option GoError
  FindUnfinished : W → W × List P × Option GoError

/-- Go `StateDesc`; `Handler = none` is the nil handler. -/
structure StateDesc (H : Type) where
  CanTransitTo : GoMap Unit
  Handler : Option H

/-- The zero value of `StateDesc`: nil map, nil handler. -/
instance instInhabitedStateDesc {H : Type} : Inhabited (StateDesc H) :=
  ⟨{ CanTransitTo := none, Handler := none }⟩

/-- Go `StateContext`. -/
structure StateContext (W P H : Type) where
  Data : P
  stateHandlerMap : GoMap (StateDesc H)
  repository : StateRepository W P

/-- Method table of the `StateHandler` interface for handler handles `H`:
`IdempotentHandle h s w` is `h.IdempotentHandle(ctx, s)` run in program state
`w`; it returns the new program state, `stopped` and `err`. -/
structure StateHandler (W P H : Type) where
  IdempotentHandle : H → StateContext W P H → W → W × Bool × Option GoError

/-- Go `StateService`. -/
structure StateService (W P H : Type) where
  Repository : StateRepository W P
  HandlerMap : GoMap (StateDesc H)

/-- One entry of the log of a run: a call of `Save` on a record with the
record's state at the call and the returned error, or a handler invocation
with the record's state before and after it and the two returned values. -/
inductive Event (P H : Type) where
  | save (data : P) (state : String) (err : Option GoError)
  | handle (handler : H) (data : P) (before after : String) (stopped : Bool)
      (err : Option GoError)
  deriving DecidableEq, Repr

/-- What a call returns: the program state afterwards, the Go `error` result
and the log of the call. -/
abbrev Outcome (W P H : Type) : Type := W × Option GoError × List (Event P H)

variable {W P H : Type}

/-! ## Functions of `state_machine.go` -/

/-- Go `(*StateContext).TransitTo`. -/
def StateContext.TransitTo (sd : StateData W P) (s : StateContext W P H)
    (state : String) (w : W) : W × Option GoError :=
  let desc := s.stateHandlerMap.index (sd.GetState s.Data w)
  if !(desc.CanTransitTo.exist state) then
    (w, some (GoError.IllegalTransitError (sd.GetState s.Data w) state))
  else
    (sd.SetState s.Data state w, none)

/-- Go `(*StateContext).getHandler`. -/
def StateContext.getHandler (sd : StateData W P) (s : StateContext W P H)
    (w : W) : Option H :=
  (s.stateHandlerMap.index (sd.GetState s.Data w)).Handler

/-- The log entry of `handler.IdempotentHandle(ctx, s)` run in program state
`w` and leaving program state `w1`. -/
def StateContext.handled (sd : StateData W P) (s : StateContext W P H) (handler : H)
    (w w1 : W) (shouldStop : Bool) (err : Option GoError) : Event P H :=
  Event.handle handler s.Data (sd.GetState s.Data w) (sd.GetState s.Data w1) shouldStop err

/-- The log entry of `Save(ctx, data)` called in program state `w`. -/
def saved (sd : StateData W P) (data : P) (w : W) (err : Option GoError) : Event P H :=
  Event.save data (sd.GetState data w) err

/-- The record a log entry is about. -/
def Event.data : Event P H → P
  | Event.save data _ _ => data
  | Event.handle _ data _ _ _ _ => data

/-- The error a log entry returned. -/
def Event.err : Event P H → Option GoError
  | Event.save _ _ err => err
  | Event.handle _ _ _ _ _ err => err

/-- The states written by the `Save` calls of a log that returned no error, in
the order of the calls. -/
def savedStates : List (Event P H) → List String
  | [] => []
  | Event.save _ state none :: rest => state :: savedStates rest
  | _ :: rest => savedStates rest

/-- Go `(*StateContext).Process`: the `for` loop, one iteration per unit of
fuel. -/
def StateContext.Process (sd : StateData W P) (sh : StateHandler W P H)
    (s : StateContext W P H) : Nat → W → Option (Outcome W P H)
  | 0, _ => none
  | fuel + 1, w =>
    match s.getHandler sd w with
    | none => some (w, none, [])
    | some handler =>
      match sh.IdempotentHandle handler s w with
      | (w1, shouldStop, some err) =>
        some (w1, some err, [s.handled sd handler w w1 shouldStop (some err)])
      | (w1, shouldStop, none) =>
        match s.repository.Save s.Data w1 with
        | (w2, some err) =>
          some (w2, some err,
            [s.handled sd handler w w1 shouldStop none, saved sd s.Data w1 (some err)])
        | (w2, none) =>
          if shouldStop then
            some (w2, none,
              [s.handled sd handler w w1 shouldStop none, saved sd s.Data w1 none])
          else
            (StateContext.Process sd sh s fuel w2).map fun r =>
              (r.1, r.2.1,
                s.handled sd handler w w1 shouldStop none :: saved sd s.Data w1 none :: r.2.2)

/-- The `StateContext` that `(*StateService).Process` builds for `data`. -/
def StateService.stateContext (s : StateService W P H) (data : P) : StateContext W P H :=
  { Data := data, stateHandlerMap := s.HandlerMap, repository := s.Repository }

/-- Go `(*StateService).Process`. -/
def StateService.Process (sd : StateData W P) (sh : StateHandler W P H)
    (s : StateService W P H) (fuel : Nat) (data : P) (w : W) :
    Option (Outcome W P H) :=
  match s.Repository.Save data w with
  | (w1, some err) => some (w1, some err, [saved sd data w (some err)])
  | (w1, none) =>
    ((s.stateContext data).Process sd sh fuel w1).map fun r =>
      (r.1, r.2.1, saved sd data w none :: r.2.2)

/-- The `for _, record := range records` loop of `FindAndRecover`. -/
def StateService.recoverRecords (sd : StateData W P) (sh : StateHandler W P H)
    (s : StateService W P H) (fuel : Nat) : List P → W → Option (Outcome W P H)
  | [], w => some (w, none, [])
  | record :: rest, w =>
    match s.Process sd sh fuel record w with
    | none => none
    | some (w1, some err, log) => some (w1, some err, log)
    | some (w1, none, log) =>
      (StateService.recoverRecords sd sh s fuel rest w1).map fun r =>
        (r.1, r.2.1, log ++ r.2.2)

/-- Relation `ProcessedInOrder sd sh s fuel records w w2 log`: starting in
program state `w`, `StateService.Process` was run on each record of `records`
once, in the order of the list, every call returned no error, the program
state afterwards is `w2` and `log` is the log of the calls, in order. -/
inductive ProcessedInOrder (sd : StateData W P) (sh : StateHandler W P H)
    (s : StateService W P H) (fuel : Nat) : List P → W → W → List (Event P H) → Prop
  | nil (w : W) : ProcessedInOrder sd sh s fuel [] w w []
  | cons (record : P) (rest : List P) (w w1 w2 : W) (log logs : List (Event P H)) :
      s.Process sd sh fuel record w = some (w1, none, log) →
      ProcessedInOrder sd sh s fuel rest w1 w2 logs →
      ProcessedInOrder sd sh s fuel (record :: rest) w w2 (log ++ logs)

/-- Go `(*StateService).FindAndRecover`; every `Process` call gets `fuel`. -/
def StateService.FindAndRecover (sd : StateData W P) (sh : StateHandler W P H)
    (s : StateService W P H) (fuel : Nat) (w : W) : Option (Outcome W P H) :=
  match s.Repository.FindUnfinished w with
  | (w1, _, some err) => some (w1, some err, [])
  | (w1, records, none) => s.recoverRecords sd sh fuel records w1

/-! ## Objects of `state_machine_test.go` -/

/-- Go `FakeStateData`. -/
structure FakeStateData where
  ID : String
  ShouldFailure : Bool
  ShouldHang : Bool
  State : String
  deriving DecidableEq, Repr

/-- The zero value of `FakeStateData`. -/
instance instInhabitedFakeStateData : Inhabited FakeStateData :=
  ⟨{ ID := "", ShouldFailure := false, ShouldHang := false, State := "" }⟩

/-- Go `InMemoryStateRepository`, a `map[string]*FakeStateData`; a pointer is
the index of its object in the heap. -/
abbrev InMemoryStateRepository : Type := GoMap Nat

/-- Program state of the test: the allocated `FakeStateData` objects and the
repository map. -/
structure TestWorld where
  heap : List FakeStateData
  repo : InMemoryStateRepository

/-- Read the object behind a pointer (the scenarios only use allocated
pointers; any other reads as the zero value). -/
def TestWorld.deref (w : TestWorld) (data : Nat) : FakeStateData :=
  w.heap.getD data default

/-- Write the object behind a pointer. -/
def TestWorld.assign (w : TestWorld) (data : Nat) (v : FakeStateData) : TestWorld :=
  { w with heap := w.heap.set data v }

/-- Go `(*FakeStateData).GetState`. -/
def FakeStateData.GetState (data : Nat) (w : TestWorld) : String :=
  (w.deref data).State

/-- Go `(*FakeStateData).SetState`. -/
def FakeStateData.SetState (data : Nat) (state : String) (w : TestWorld) : TestWorld :=
  w.assign data { w.deref data with State := state }

/-- Go `(*FakeStateData).IsFinished`. -/
def FakeStateData.IsFinished (data : FakeStateData) : Bool :=
  data.State == "success" || data.State == "fail"

/-- The method table of `*FakeStateData` as a `StateData`. -/
def FakeStateData.methods : StateData TestWorld Nat :=
  { GetState := FakeStateData.GetState, SetState := FakeStateData.SetState }

/-- Go `InMemoryStateRepository.Save`; every record of the test program is a
`*FakeStateData`, so the type assertion succeeds. -/
def InMemoryStateRepository.Save (data : Nat) (w : TestWorld) :
    TestWorld × Option GoError :=
  ({ w with repo := w.repo.set (w.deref data).ID data }, none)

/-- Go `InMemoryStateRepository.FindUnfinished`; the map is ranged over in
the order of its entries (Go leaves the order unspecified). -/
def InMemoryStateRepository.FindUnfinished (w : TestWorld) :
    TestWorld × List Nat × Option GoError :=
  (w, (w.repo.entries.map Prod.snd).filter (fun data => !(w.deref data).IsFinished),
    none)

/-- The repository of the test as a `StateRepository` value. -/
def InMemoryStateRepository.methods : StateRepository TestWorld Nat :=
  { Save := InMemoryStateRepository.Save,
    FindUnfinished := InMemoryStateRepository.FindUnfinished }

/-- The handler objects of the test: `new(StepAHandler)`, `new(StepBHandler)`. -/
inductive TestHandler where
  | StepAHandler
  | StepBHandler
  deriving DecidableEq, Repr

/-- Go `(*StepAHandler).IdempotentHandle`; the record is a `*FakeStateData`, so
the type assertion succeeds. -/
def StepAHandler.IdempotentHandle (stateContext : StateContext TestWorld Nat TestHandler)
    (w : TestWorld) : TestWorld × Bool × Option GoError :=
  let fakeData := w.deref stateContext.Data
  if fakeData.ShouldFailure then
    (w.assign stateContext.Data { fakeData with ShouldFailure := false }, true,
      some (GoError.errorString "mock failure"))
  else
    let r := stateContext.TransitTo FakeStateData.methods "stepB" w
    (r.1, false, r.2)

/-- Go `(*StepBHandler).IdempotentHandle`; the record is a `*FakeStateData`, so
the type assertion succeeds, and the two `fmt.Println` calls only print. -/
def StepBHandler.IdempotentHandle (stateContext : StateContext TestWorld Nat TestHandler)
    (w : TestWorld) : TestWorld × Bool × Option GoError :=
  let fakeData := w.deref stateContext.Data
  if fakeData.ShouldHang then
    (w.assign stateContext.Data { fakeData with ShouldHang := false }, true, none)
  else
    let r := stateContext.TransitTo FakeStateData.methods "success" w
    (r.1, false, r.2)

/-- The method table of the two test handlers. -/
def TestHandler.methods : StateHandler TestWorld Nat TestHandler :=
  { IdempotentHandle := fun handler =>
      match handler with
      | TestHandler.StepAHandler => StepAHandler.IdempotentHandle
      | TestHandler.StepBHandler => StepBHandler.IdempotentHandle }

/-- The `HandlerMap` literal of `TestStateMachine`. -/
def testHandlerMap : GoMap (StateDesc TestHandler) :=
  some [("stepA", { CanTransitTo := some [("stepB", ())],
                    Handler := some TestHandler.StepAHandler }),
        ("stepB", { CanTransitTo := some [("success", ())],
                    Handler := some TestHandler.StepBHandler })]

/-- The service `s` of `TestStateMachine`. -/
def testService : StateService TestWorld Nat TestHandler :=
  { Repository := InMemoryStateRepository.methods, HandlerMap := testHandlerMap }

/-- Go `data1` of `TestStateMachine`. -/
def data1 : FakeStateData :=
  { ID := "1", ShouldFailure := true, ShouldHang := true, State := "stepA" }

/-- Go `data2` of `TestStateMachine`. -/
def data2 : FakeStateData :=
  { ID := "2", ShouldFailure := false, ShouldHang := true, State := "stepA" }

/-- Go `data3` of `TestStateMachine`. -/
def data3 : FakeStateData :=
  { ID := "3", ShouldFailure := false, ShouldHang := false, State := "stepA" }

/-- The program state of `TestStateMachine` before the first `Process` call:
`data1`, `data2`, `data3` are the pointers 0, 1, 2 and the repository is the
empty map made by `make`. -/
def testWorld : TestWorld :=
  { heap := [data1, data2, data3], repo := some [] }

/-- The state the repository of the test holds for the identity `id`: the
state of the object its entry points to. -/
def InMemoryStateRepository.storedState (w : TestWorld) (id : String) : Option String :=
  (w.repo.get? id).map fun data => (w.deref data).State

/-- Program state for a repository that keeps copies: the program state of the
test (its repository map is not used) and, per identity, the copy of the state
that was saved last. -/
structure CopyWorld where
  mem : TestWorld
  stored : GoMap String

/-- The method table of `*FakeStateData` for records in a `CopyWorld`. -/
def CopyWorld.methods : StateData CopyWorld Nat :=
  { GetState := fun data w => FakeStateData.GetState data w.mem,
    SetState := fun data state w => { w with mem := FakeStateData.SetState data state w.mem } }

/-- A repository that keeps copies: `Save` stores the current state of the
record, as a value, under the identity of the record, and never fails;
`FindUnfinished` returns the records whose stored state is not final. -/
def copyingRepository : StateRepository CopyWorld Nat :=
  { Save := fun data w =>
      ({ w with stored := w.stored.set (w.mem.deref data).ID (w.mem.deref data).State }, none),
    FindUnfinished := fun w =>
      (w, (List.range w.mem.heap.length).filter (fun data =>
          match w.stored.get? (w.mem.deref data).ID with
          | some state => !(state == "success" || state == "fail")
          | none => false),
        none) }

/-- The handlers of the test run in a `CopyWorld`: they act on the record as in
the test and do not reach the stored copies. -/
def copyingHandlers : StateHandler CopyWorld Nat TestHandler :=
  { IdempotentHandle := fun handler s w =>
      let r := TestHandler.methods.IdempotentHandle handler
        { Data := s.Data, stateHandlerMap := s.stateHandlerMap,
          repository := InMemoryStateRepository.methods } w.mem
      ({ w with mem := r.1 }, r.2) }

/-- What `copyingRepository` holds, as far as the record `data` is concerned:
the state stored for every identity, and the identity of `data`. -/
def copyingRepository.content (data : Nat) (w : CopyWorld) : GoMap String × String :=
  (w.stored, (w.mem.deref data).ID)

/-- The effect on `copyingRepository.content` of storing `state` for the
record. -/
def copyingRepository.store (state : String) (c : GoMap String × String) :
    GoMap String × String :=
  (c.1.set c.2 state, c.2)

/-- A repository all of whose calls fail (used to exercise the storage-error
paths, which the repository of the test never takes). -/
def failingRepository : StateRepository TestWorld Nat :=
  { Save := fun _ w => (w, some (GoError.errorString "storage failure")),
    FindUnfinished := fun w => (w, [], some (GoError.errorString "storage failure")) }

/-- The test service over `failingRepository`. -/
def failingService : StateService TestWorld Nat TestHandler :=
  { Repository := failingRepository, HandlerMap := testHandlerMap }

/-- A program state for a recovery sweep: `data2`, `data1`, `data3` are the
pointers 0, 1, 2 and all three are in the repository, in state `stepA`. -/
def sweepWorld : TestWorld :=
  { heap := [data2, data1, data3], repo := some [("2", 0), ("1", 1), ("3", 2)] }

/-- The `StateContext` that `testService.Process` builds for a record. -/
def testContext (data : Nat) : StateContext TestWorld Nat TestHandler :=
  testService.stateContext data

/-- The test registry with the edge `stepB -> success` left out: `stepB` may
only go to `fail`. -/
def stuckHandlerMap : GoMap (StateDesc TestHandler) :=
  some [("stepA", { CanTransitTo := some [("stepB", ())],
                    Handler := some TestHandler.StepAHandler }),
        ("stepB", { CanTransitTo := some [("fail", ())],
                    Handler := some TestHandler.StepBHandler })]

/-- The test service over `stuckHandlerMap`. -/
def stuckService : StateService TestWorld Nat TestHandler :=
  { Repository := InMemoryStateRepository.methods, HandlerMap := stuckHandlerMap }

/-- The service over `stuckHandlerMap` with the repository that keeps copies. -/
def copyingService : StateService CopyWorld Nat TestHandler :=
  { Repository := copyingRepository, HandlerMap := stuckHandlerMap }

/-- The program state of the test, before any call, with nothing stored. -/
def copyWorld : CopyWorld :=
  { mem := testWorld, stored := some [] }

/-! ## The graph of a registry, handlers that only transit -/

/-- Whether a log entry is a handler invocation. -/
def Event.isHandle : Event P H → Bool
  | Event.save _ _ _ => false
  | Event.handle _ _ _ _ _ _ => true

/-- The number of handler invocations of a log. -/
def handleCount (log : List (Event P H)) : Nat :=
  (log.filter Event.isHandle).length

/-- An edge `A -> B` of the registry: `B` is a key of `registry[A].CanTransitTo`. -/
def Edge (registry : GoMap (StateDesc H)) (A B : String) : Prop :=
  B ∈ (registry.index A).CanTransitTo.keys

/-- The registry states that have a handler, each once. -/
def handlerStates (registry : GoMap (StateDesc H)) : List String :=
  registry.keys.dedup.filter fun k => (registry.index k).Handler.isSome

/-- Relation `TransitRun sd s n w w2`: the program state `w2` comes from `w` by
steps each of which either is a call `s.TransitTo(B)` that returned no error or
leaves the state of the record of `s` as it is (a rejected `TransitTo` is of
the second kind); `n` is the number of steps of the first kind.  A handler
changes the state of the record only through `TransitTo` when each of its
invocations is such a run. -/
inductive TransitRun (sd : StateData W P) (s : StateContext W P H) : Nat → W → W → Prop
  | refl (w : W) : TransitRun sd s 0 w w
  | other (n : Nat) (w w1 w2 : W) :
      TransitRun sd s n w w1 →
      sd.GetState s.Data w2 = sd.GetState s.Data w1 →
      TransitRun sd s n w w2
  | transit (n : Nat) (w w1 : W) (B : String) :
      TransitRun sd s n w w1 →
      (s.TransitTo sd B w1).2 = none →
      TransitRun sd s (n + 1) w (s.TransitTo sd B w1).1

/-- One step of the sweep in the words of the specification: `Process` on the
next record, unless an earlier call has returned an error (or ran out of
fuel). -/
def StateService.sweepStep (sd : StateData W P) (sh : StateHandler W P H)
    (s : StateService W P H) (fuel : Nat) (acc : Option (Outcome W P H)) (record : P) :
    Option (Outcome W P H) :=
  match acc with
  | some (w2, none, log) =>
    (s.Process sd sh fuel record w2).map fun r => (r.1, r.2.1, log ++ r.2.2)
  | stopped => stopped

/-- The recovery sweep in the words of the specification: when
`FindUnfinished` fails, its error and nothing else; otherwise `Process` on each
returned record once, in the returned order, the calls after the first error
being left out. -/
def StateService.FindAndRecover_spec (sd : StateData W P) (sh : StateHandler W P H)
    (s : StateService W P H) (fuel : Nat) (w : W) : Option (Outcome W P H) :=
  match s.Repository.FindUnfinished w with
  | (w1, _, some err) => some (w1, some err, [])
  | (w1, records, none) => records.foldl (s.sweepStep sd sh fuel) (some (w1, none, []))

/-! ## Further objects for the scenarios of the test -/

/-- The test registry with an entry for the final state `success` (no
destination, no handler), so that every destination is a key. -/
def closedHandlerMap : GoMap (StateDesc TestHandler) :=
  some [("stepA", { CanTransitTo := some [("stepB", ())],
                    Handler := some TestHandler.StepAHandler }),
        ("stepB", { CanTransitTo := some [("success", ())],
                    Handler := some TestHandler.StepBHandler }),
        ("success", { CanTransitTo := none, Handler := none })]

/-- The test service over `closedHandlerMap`. -/
def closedService : StateService TestWorld Nat TestHandler :=
  { Repository := InMemoryStateRepository.methods, HandlerMap := closedHandlerMap }

/-- A program state with one record, created in state `stepA` with the given
flags, and the empty repository. -/
def flagWorld (shouldFailure shouldHang : Bool) : TestWorld :=
  { heap := [{ ID := "1", ShouldFailure := shouldFailure, ShouldHang := shouldHang,
               State := "stepA" }],
    repo := some [] }

/-- The program state of `TestStateMachine` after its three `Process` calls,
before `FindAndRecover`. -/
def processedWorld : TestWorld :=
  { heap := [{ data1 with ShouldFailure := false },
             { data2 with ShouldHang := false, State := "stepB" },
             { data3 with State := "success" }],
    repo := some [("1", 0), ("2", 1), ("3", 2)] }

/-- The program state of `TestStateMachine` at its end. -/
def recoveredWorld : TestWorld :=
  { heap := [{ data1 with ShouldFailure := false, ShouldHang := false, State := "stepB" },
             { data2 with ShouldHang := false, State := "success" },
             { data3 with State := "success" }],
    repo := some [("1", 0), ("2", 1), ("3", 2)] }

/-- Re-running `testService.Process` on record 0 after each failed or paused
call, at most `calls` times: a call that returns no error and leaves the record
finished ends the re-runs.  The result is the program state and the error of
the last call made and the number of calls made; `none` when `calls` calls did
not finish the record (or a call ran out of fuel). -/
def reProcess (fuel : Nat) : Nat → TestWorld → Option (TestWorld × Option GoError × Nat)
  | 0, _ => none
  | calls + 1, w =>
    match testService.Process FakeStateData.methods TestHandler.methods fuel 0 w with
    | none => none
    | some (w1, err, _) =>
      if err = none ∧ (w1.deref 0).IsFinished = true then some (w1, err, 1)
      else (reProcess fuel calls w1).map fun r => (r.1, r.2.1, r.2.2 + 1)

end persistablestatemachine

/-!
# The hard-coded variant (package `statepattern`)

A shallow embedding of the transition table, `AfterLoad` and `TransitTo` of
`transfer_state_pattern.go`.  A `Transfer` is a value; `range` over a Go map
yields its entries in an order Go leaves open, so `AfterLoad` takes that order
as an argument.
-/

namespace statepattern

open persistablestatemachine (GoMap GoError)

/-- Go `ErrIllegalStateTransfer`. -/
def ErrIllegalStateTransfer : GoError :=
  GoError.errorString "illegal state transfer"

/-- The handler objects of the package, with their fields. -/
inductive TransferStateHandler where
  | InitStateHandler (initCase : String)
  | AuditingStateHandler (auditingCase : String)
  | AuditPassStateHandler (deductCase : String)
  | DeductSuccessStateHandler
  deriving DecidableEq, Repr

/-- Go `StateDesc` of the package; `Handler = none` is the nil handler. -/
structure StateDesc where
  CanTransferTo : GoMap Unit
  Handler : Option TransferStateHandler

/-- The zero value of `StateDesc`: nil map, nil handler. -/
instance instInhabitedStateDesc : Inhabited StateDesc :=
  ⟨{ CanTransferTo := none, Handler := none }⟩

/-- Go `stateHandlers`, the transition table of the package. -/
def stateHandlers : GoMap StateDesc :=
  some [("init", { CanTransferTo := some [("fail", ()), ("auditPass", ()), ("auditing", ())],
                   Handler := some (TransferStateHandler.InitStateHandler "") }),
        ("auditing", { CanTransferTo := some [("fail", ()), ("auditPass", ())],
                       Handler := none }),
        ("auditPass", { CanTransferTo := some [("fail", ()), ("deductSuccess", ())],
                        Handler := some (TransferStateHandler.AuditPassStateHandler "") }),
        ("deductSuccess", { CanTransferTo := some [("success", ())],
                            Handler := some TransferStateHandler.DeductSuccessStateHandler })]

/-- Go `Transfer`. -/
structure Transfer where
  State : String
  stateHandlerMap : GoMap StateDesc

/-- Go `(*Transfer).AfterLoad`; `order` is the order in which
`range stateHandlers` yields the entries of the table.  As in the source, the
key of every assignment is `t.State`, not the key of the entry. -/
def Transfer.AfterLoad (order : List (String × StateDesc)) (t : Transfer) : Transfer :=
  order.foldl
    (fun t1 entry => { t1 with stateHandlerMap := t1.stateHandlerMap.set t1.State entry.2 })
    { t with stateHandlerMap := some [] }

/-- Go `(*Transfer).TransitTo`. -/
def Transfer.TransitTo (t : Transfer) (state : String) : Transfer × Option GoError :=
  let desc := t.stateHandlerMap.index t.State
  if !(desc.CanTransferTo.exist state) then
    (t, some ErrIllegalStateTransfer)
  else
    ({ t with State := state }, none)

end statepattern

namespace persistablestatemachine

variable {W P H : Type}

/-! ## Lemmas on Go maps -/

theorem lookup_isSome_iff_mem_fst {V : Type} (k : String) (kvs : List (String × V)) :
    (kvs.lookup k).isSome = true ↔ k ∈ kvs.map Prod.fst := by
  induction kvs with
  | nil => simp
  | cons kv rest ih =>
    obtain ⟨k1, v1⟩ := kv
    by_cases hk : k = k1
    · subst hk
      simp [List.lookup]
    · have hne : (k == k1) = false := by simpa using hk
      simp [List.lookup, hne, ih, hk]

theorem GoMap.exist_iff_mem_keys {V : Type} (m : GoMap V) (k : String) :
    m.exist k = true ↔ k ∈ m.keys := by
  cases m with
  | none => simp [GoMap.exist, GoMap.get?, GoMap.keys, GoMap.entries]
  | some kvs =>
    have h := lookup_isSome_iff_mem_fst k kvs
    simp only [GoMap.exist, GoMap.get?, GoMap.keys, GoMap.entries]
    exact h

/-! ## Unfolding the loop of `StateContext.Process` -/

theorem StateContext.Process_no_handler (sd : StateData W P) (sh : StateHandler W P H)
    (s : StateContext W P H) (fuel : Nat) (w : W) (hh : s.getHandler sd w = none) :
    s.Process sd sh (fuel + 1) w = some (w, none, []) := by
  simp [StateContext.Process, hh]

theorem StateContext.Process_handler_error (sd : StateData W P) (sh : StateHandler W P H)
    (s : StateContext W P H) (fuel : Nat) (w w1 : W) (handler : H) (shouldStop : Bool)
    (e : GoError) (hh : s.getHandler sd w = some handler)
    (hr : sh.IdempotentHandle handler s w = (w1, shouldStop, some e)) :
    s.Process sd sh (fuel + 1) w =
      some (w1, some e, [s.handled sd handler w w1 shouldStop (some e)]) := by
  simp [StateContext.Process, hh, hr]

theorem StateContext.Process_save_error (sd : StateData W P) (sh : StateHandler W P H)
    (s : StateContext W P H) (fuel : Nat) (w w1 w2 : W) (handler : H) (shouldStop : Bool)
    (e : GoError) (hh : s.getHandler sd w = some handler)
    (hr : sh.IdempotentHandle handler s w = (w1, shouldStop, none))
    (hs : s.repository.Save s.Data w1 = (w2, some e)) :
    s.Process sd sh (fuel + 1) w =
      some (w2, some e,
        [s.handled sd handler w w1 shouldStop none, saved sd s.Data w1 (some e)]) := by
  simp [StateContext.Process, hh, hr, hs]

theorem StateContext.Process_stop (sd : StateData W P) (sh : StateHandler W P H)
    (s : StateContext W P H) (fuel : Nat) (w w1 w2 : W) (handler : H)
    (hh : s.getHandler sd w = some handler)
    (hr : sh.IdempotentHandle handler s w = (w1, true, none))
    (hs : s.repository.Save s.Data w1 = (w2, none)) :
    s.Process sd sh (fuel + 1) w =
      some (w2, none, [s.handled sd handler w w1 true none, saved sd s.Data w1 none]) := by
  simp [StateContext.Process, hh, hr, hs]

theorem StateContext.Process_continue (sd : StateData W P) (sh : StateHandler W P H)
    (s : StateContext W P H) (fuel : Nat) (w w1 w2 : W) (handler : H)
    (hh : s.getHandler sd w = some handler)
    (hr : sh.IdempotentHandle handler s w = (w1, false, none))
    (hs : s.repository.Save s.Data w1 = (w2, none)) :
    s.Process sd sh (fuel + 1) w =
      (s.Process sd sh fuel w2).map fun r =>
        (r.1, r.2.1,
          s.handled sd handler w w1 false none :: saved sd s.Data w1 none :: r.2.2) := by
  simp [StateContext.Process, hh, hr, hs]

/-- Rule induction over the returning runs of the loop. -/
theorem StateContext.Process_induction (sd : StateData W P) (sh : StateHandler W P H)
    (s : StateContext W P H) (motive : W → Outcome W P H → Prop)
    (no_handler : ∀ w, s.getHandler sd w = none → motive w (w, none, []))
    (handler_error : ∀ w w1 handler shouldStop e, s.getHandler sd w = some handler →
      sh.IdempotentHandle handler s w = (w1, shouldStop, some e) →
      motive w (w1, some e, [s.handled sd handler w w1 shouldStop (some e)]))
    (save_error : ∀ w w1 w2 handler shouldStop e, s.getHandler sd w = some handler →
      sh.IdempotentHandle handler s w = (w1, shouldStop, none) →
      s.repository.Save s.Data w1 = (w2, some e) →
      motive w (w2, some e,
        [s.handled sd handler w w1 shouldStop none, saved sd s.Data w1 (some e)]))
    (stop : ∀ w w1 w2 handler, s.getHandler sd w = some handler →
      sh.IdempotentHandle handler s w = (w1, true, none) →
      s.repository.Save s.Data w1 = (w2, none) →
      motive w (w2, none, [s.handled sd handler w w1 true none, saved sd s.Data w1 none]))
    (continue_ : ∀ w w1 w2 handler out, s.getHandler sd w = some handler →
      sh.IdempotentHandle handler s w = (w1, false, none) →
      s.repository.Save s.Data w1 = (w2, none) →
      motive w2 out →
      motive w (out.1, out.2.1,
        s.handled sd handler w w1 false none :: saved sd s.Data w1 none :: out.2.2)) :
    ∀ (fuel : Nat) (w : W) (out : Outcome W P H),
      s.Process sd sh fuel w = some out → motive w out := by
  intro fuel
  induction fuel with
  | zero => intro w out h; simp [StateContext.Process] at h
  | succ fuel ih =>
    intro w out h
    cases hh : s.getHandler sd w with
    | none =>
      rw [StateContext.Process_no_handler sd sh s fuel w hh] at h
      cases h
      exact no_handler w hh
    | some handler =>
      rcases hr : sh.IdempotentHandle handler s w with ⟨w1, shouldStop, err⟩
      cases err with
      | some e =>
        rw [StateContext.Process_handler_error sd sh s fuel w w1 handler shouldStop e hh hr] at h
        cases h
        exact handler_error w w1 handler shouldStop e hh hr
      | none =>
        rcases hs : s.repository.Save s.Data w1 with ⟨w2, err2⟩
        cases err2 with
        | some e =>
          rw [StateContext.Process_save_error sd sh s fuel w w1 w2 handler shouldStop e hh hr hs] at h
          cases h
          exact save_error w w1 w2 handler shouldStop e hh hr hs
        | none =>
          cases shouldStop with
          | true =>
            rw [StateContext.Process_stop sd sh s fuel w w1 w2 handler hh hr hs] at h
            cases h
            exact stop w w1 w2 handler hh hr hs
          | false =>
            rw [StateContext.Process_continue sd sh s fuel w w1 w2 handler hh hr hs] at h
            cases hrec : s.Process sd sh fuel w2 with
            | none => simp [hrec] at h
            | some out2 =>
              simp only [hrec, Option.map_some', Option.some.injEq] at h
              subst h
              exact continue_ w w1 w2 handler out2 hh hr hs (ih w2 out2 hrec)

theorem cons_eq_append_singleton {α : Type} (a x : α) (l pre : List α)
    (h : a :: l = pre ++ [x]) :
    (l = [] ∧ pre = [] ∧ x = a) ∨ ∃ pre2, l = pre2 ++ [x] ∧ pre = a :: pre2 := by
  cases pre with
  | nil =>
    left
    simp at h
    obtain ⟨h1, h2⟩ := h
    exact ⟨h2, rfl, h1.symm⟩
  | cons b pre2 =>
    right
    simp at h
    obtain ⟨h1, h2⟩ := h
    exact ⟨pre2, h2, by rw [h1]⟩

/-- In a returning run of the loop, a handler invocation that returned an error
is the last entry; the loop returns that error, the record is left in the
state the invocation left, and the invocation either opened the run or
directly followed a successful `Save` of the state it started from. -/
theorem StateContext.Process_failed_handle (sd : StateData W P) (sh : StateHandler W P H)
    (s : StateContext W P H)
    (hsave : ∀ w0, sd.GetState s.Data (s.repository.Save s.Data w0).1 = sd.GetState s.Data w0)
    (fuel : Nat) (w : W) (out : Outcome W P H) (hrun : s.Process sd sh fuel w = some out) :
    ∀ (pre : List (Event P H)) (h : H) (d : P) (b a : String) (stop : Bool) (e : GoError),
      out.2.2 = pre ++ [Event.handle h d b a stop (some e)] →
      out.2.1 = some e ∧ sd.GetState s.Data out.1 = a ∧
        ((pre = [] ∧ b = sd.GetState s.Data w) ∨
          ∃ pre2, pre = pre2 ++ [Event.save s.Data b none]) := by
  revert fuel w out
  apply StateContext.Process_induction sd sh s
  · intro w _ pre h d b a stop e hlog
    simp at hlog
  · intro w w1 handler shouldStop e0 _ _ pre h d b a stop e hlog
    rcases cons_eq_append_singleton _ _ _ _ hlog with ⟨_, hpre, hx⟩ | ⟨pre2, hl, _⟩
    · simp only [StateContext.handled, Event.handle.injEq] at hx
      obtain ⟨_, _, hb, ha, _, he⟩ := hx
      simp at he
      exact ⟨by simp [he], ha.symm, Or.inl ⟨hpre, hb⟩⟩
    · simp at hl
  · intro w w1 w2 handler shouldStop e0 _ _ _ pre h d b a stop e hlog
    rcases cons_eq_append_singleton _ _ _ _ hlog with ⟨hl, _, _⟩ | ⟨pre2, hl, _⟩
    · simp at hl
    · rcases cons_eq_append_singleton _ _ _ _ hl with ⟨_, _, hx⟩ | ⟨pre3, hl3, _⟩
      · simp [saved] at hx
      · simp at hl3
  · intro w w1 w2 handler _ _ _ pre h d b a stop e hlog
    rcases cons_eq_append_singleton _ _ _ _ hlog with ⟨hl, _, _⟩ | ⟨pre2, hl, _⟩
    · simp at hl
    · rcases cons_eq_append_singleton _ _ _ _ hl with ⟨_, _, hx⟩ | ⟨pre3, hl3, _⟩
      · simp [saved] at hx
      · simp at hl3
  · intro w w1 w2 handler out _ _ hs ih pre h d b a stop e hlog
    rcases cons_eq_append_singleton _ _ _ _ hlog with ⟨hl, _, _⟩ | ⟨pre2, hl, hpre⟩
    · simp at hl
    · rcases cons_eq_append_singleton _ _ _ _ hl with ⟨_, _, hx⟩ | ⟨pre3, hl3, hpre2⟩
      · simp [saved] at hx
      · obtain ⟨h1, h2, h3⟩ := ih pre3 h d b a stop e hl3
        refine ⟨h1, h2, Or.inr ?_⟩
        rcases h3 with ⟨hp3, hb⟩ | ⟨pre4, hp4⟩
        · refine ⟨[s.handled sd handler w w1 false none], ?_⟩
          have hw2 : sd.GetState s.Data w2 = sd.GetState s.Data w1 := by
            have := hsave w1
            rw [hs] at this
            exact this
          rw [hpre, hpre2, hp3, hb, hw2]
          simp [saved]
        · refine ⟨s.handled sd handler w w1 false none :: saved sd s.Data w1 none :: pre4, ?_⟩
          rw [hpre, hpre2, hp4]
          simp

/-- The two ways `StateService.Process` returns. -/
theorem StateService.Process_inv (sd : StateData W P) (sh : StateHandler W P H)
    (s : StateService W P H) (fuel : Nat) (data : P) (w : W) (out : Outcome W P H)
    (hrun : s.Process sd sh fuel data w = some out) :
    (∃ w1 e, s.Repository.Save data w = (w1, some e) ∧
        out = (w1, some e, [saved sd data w (some e)])) ∨
      (∃ w1 r, s.Repository.Save data w = (w1, none) ∧
        (s.stateContext data).Process sd sh fuel w1 = some r ∧
        out = (r.1, r.2.1, saved sd data w none :: r.2.2)) := by
  unfold StateService.Process at hrun
  rcases hs : s.Repository.Save data w with ⟨w1, err⟩
  rw [hs] at hrun
  cases err with
  | some e =>
    left
    simp only [Option.some.injEq] at hrun
    exact ⟨w1, e, rfl, hrun.symm⟩
  | none =>
    right
    simp only at hrun
    cases hr : (s.stateContext data).Process sd sh fuel w1 with
    | none => simp [hr] at hrun
    | some r =>
      simp only [hr, Option.map_some', Option.some.injEq] at hrun
      exact ⟨w1, r, rfl, hr, hrun.symm⟩

/-- The content of the repository after a returning run of the loop is the
content before it with the states of the successful `Save` calls of the log
stored in order. -/
theorem StateContext.Process_content {C : Type} (sd : StateData W P)
    (sh : StateHandler W P H) (s : StateContext W P H) (content : W → C)
    (store : String → C → C)
    (hok : ∀ w0 w1, s.repository.Save s.Data w0 = (w1, none) →
      content w1 = store (sd.GetState s.Data w0) (content w0))
    (hfail : ∀ w0 w1 e, s.repository.Save s.Data w0 = (w1, some e) → content w1 = content w0)
    (hhandle : ∀ h w0, content (sh.IdempotentHandle h s w0).1 = content w0)
    (fuel : Nat) (w : W) (out : Outcome W P H) (hrun : s.Process sd sh fuel w = some out) :
    content out.1 = (savedStates out.2.2).foldl (fun c st => store st c) (content w) := by
  revert fuel w out
  apply StateContext.Process_induction sd sh s
  · intro w _
    simp [savedStates]
  · intro w w1 handler shouldStop e _ hr
    have := hhandle handler w
    rw [hr] at this
    simpa [savedStates, StateContext.handled] using this
  · intro w w1 w2 handler shouldStop e _ hr hs
    have h1 := hhandle handler w
    rw [hr] at h1
    have h2 := hfail w1 w2 e hs
    simp only [savedStates, StateContext.handled, saved, List.foldl_nil]
    rw [h2, h1]
  · intro w w1 w2 handler _ hr hs
    have h1 := hhandle handler w
    rw [hr] at h1
    have h2 := hok w1 w2 hs
    simp only [savedStates, StateContext.handled, saved, List.foldl_cons, List.foldl_nil]
    rw [h2, h1]
  · intro w w1 w2 handler out _ hr hs ih
    have h1 := hhandle handler w
    rw [hr] at h1
    have h2 := hok w1 w2 hs
    simp only [savedStates, StateContext.handled, saved, List.foldl_cons]
    rw [ih, h2, h1]

theorem TestWorld.deref_assign_ID (w : TestWorld) (data : Nat) (v : FakeStateData)
    (hv : v.ID = (w.deref data).ID) (q : Nat) :
    ((w.assign data v).deref q).ID = (w.deref q).ID := by
  simp only [TestWorld.deref, TestWorld.assign] at *
  by_cases hq : data = q
  · subst hq
    by_cases hlt : data < w.heap.length
    · simp [List.getD_eq_getElem?_getD, hlt] at hv ⊢
      exact hv
    · have hle : w.heap.length ≤ data := Nat.le_of_not_lt hlt
      have h1 : (w.heap.set data v)[data]? = none :=
        List.getElem?_eq_none (by simpa using hle)
      have h2 : w.heap[data]? = none := List.getElem?_eq_none hle
      simp [List.getD_eq_getElem?_getD, h1, h2]
  · simp [List.getD_eq_getElem?_getD, List.getElem?_set_ne hq]


theorem TransitTo_test_frame (s : StateContext TestWorld Nat TestHandler) (state : String)
    (w : TestWorld) (q : Nat) :
    (s.TransitTo FakeStateData.methods state w).1.repo = w.repo ∧
      ((s.TransitTo FakeStateData.methods state w).1.deref q).ID = (w.deref q).ID := by
  unfold StateContext.TransitTo
  dsimp only
  split
  · exact ⟨rfl, rfl⟩
  · refine ⟨rfl, ?_⟩
    apply TestWorld.deref_assign_ID
    rfl

theorem StepAHandler_frame (s : StateContext TestWorld Nat TestHandler)
    (w : TestWorld) (q : Nat) :
    (StepAHandler.IdempotentHandle s w).1.repo = w.repo ∧
      ((StepAHandler.IdempotentHandle s w).1.deref q).ID = (w.deref q).ID := by
  unfold StepAHandler.IdempotentHandle
  dsimp only
  split
  · refine ⟨rfl, ?_⟩
    apply TestWorld.deref_assign_ID
    rfl
  · exact TransitTo_test_frame s "stepB" w q

theorem StepBHandler_frame (s : StateContext TestWorld Nat TestHandler)
    (w : TestWorld) (q : Nat) :
    (StepBHandler.IdempotentHandle s w).1.repo = w.repo ∧
      ((StepBHandler.IdempotentHandle s w).1.deref q).ID = (w.deref q).ID := by
  unfold StepBHandler.IdempotentHandle
  dsimp only
  split
  · refine ⟨rfl, ?_⟩
    apply TestWorld.deref_assign_ID
    rfl
  · exact TransitTo_test_frame s "success" w q

theorem lookup_map_replace {V : Type} (k : String) (v : V) (kvs : List (String × V))
    (h : (kvs.lookup k).isSome = true) :
    (kvs.map (fun kv => if kv.1 == k then (k, v) else kv)).lookup k = some v := by
  induction kvs with
  | nil => simp at h
  | cons kv rest ih =>
    obtain ⟨k1, v1⟩ := kv
    by_cases hk : k = k1
    · subst hk
      have hkk : (k == k) = true := by simp
      rw [List.map_cons]
      simp only [hkk, if_true, List.lookup_cons]
    · have hne : (k == k1) = false := by simpa using hk
      have hne2 : (k1 == k) = false := by simpa using fun h => hk h.symm
      rw [List.lookup_cons, hne] at h
      rw [List.map_cons]
      simp only [hne2, Bool.false_eq_true, if_false, List.lookup_cons, hne]
      exact ih h

theorem lookup_append_new {V : Type} (k : String) (v : V) (kvs : List (String × V))
    (h : (kvs.lookup k).isSome = false) :
    (kvs ++ [(k, v)]).lookup k = some v := by
  induction kvs with
  | nil => simp [List.lookup]
  | cons kv rest ih =>
    obtain ⟨k1, v1⟩ := kv
    by_cases hk : k = k1
    · subst hk
      simp [List.lookup] at h
    · have hne : (k == k1) = false := by simpa using hk
      simp only [List.lookup, hne] at h
      simp [List.lookup, hne, ih h]

theorem GoMap.get?_set_self {V : Type} (m : GoMap V) (k : String) (v : V) :
    (m.set k v).get? k = some v := by
  cases m with
  | none => simp [GoMap.set, GoMap.get?, List.lookup]
  | some kvs =>
    simp only [GoMap.set]
    cases h : (kvs.lookup k).isSome with
    | true => simpa [GoMap.get?] using lookup_map_replace k v kvs h
    | false => simpa [GoMap.get?] using lookup_append_new k v kvs h

/-- A run of the loop that returns no error either did nothing or ended with a
successful `Save` of the record. -/
theorem StateContext.Process_success_last (sd : StateData W P) (sh : StateHandler W P H)
    (s : StateContext W P H) (fuel : Nat) (w : W) (out : Outcome W P H)
    (hrun : s.Process sd sh fuel w = some out) :
    out.2.1 = none →
      (out.1 = w ∧ out.2.2 = []) ∨ ∃ w0, s.repository.Save s.Data w0 = (out.1, none) := by
  revert fuel w out
  apply StateContext.Process_induction sd sh s
  · intro w _ _
    exact Or.inl ⟨rfl, rfl⟩
  · intro w w1 handler shouldStop e _ _ h
    simp at h
  · intro w w1 w2 handler shouldStop e _ _ _ h
    simp at h
  · intro w w1 w2 handler _ _ hs _
    exact Or.inr ⟨w1, hs⟩
  · intro w w1 w2 handler out _ _ hs ih h
    rcases ih h with ⟨h1, _⟩ | h2
    · exact Or.inr ⟨w1, by rw [h1]; exact hs⟩
    · exact Or.inr h2

/-- In a returning run of the loop, a log entry that returned an error is the
last entry and its error is the one the loop returns. -/
theorem StateContext.Process_error_last (sd : StateData W P) (sh : StateHandler W P H)
    (s : StateContext W P H) (fuel : Nat) (w : W) (out : Outcome W P H)
    (hrun : s.Process sd sh fuel w = some out) :
    ∀ (pre post : List (Event P H)) (ev : Event P H) (e : GoError),
      out.2.2 = pre ++ ev :: post → ev.err = some e → out.2.1 = some e ∧ post = [] := by
  revert fuel w out
  apply StateContext.Process_induction sd sh s
  · intro w _ pre post ev e hlog
    simp at hlog
  · intro w w1 handler shouldStop e0 _ _ pre post ev e hlog hev
    rcases List.cons_eq_append_iff.mp hlog with ⟨_, h2⟩ | ⟨pre2, _, h2⟩
    · simp only [List.cons.injEq] at h2
      obtain ⟨h3, h4⟩ := h2
      subst h3
      simp only [StateContext.handled, Event.err] at hev
      exact ⟨hev, h4⟩
    · simp at h2
  · intro w w1 w2 handler shouldStop e0 _ _ _ pre post ev e hlog hev
    rcases List.cons_eq_append_iff.mp hlog with ⟨_, h2⟩ | ⟨pre2, _, h2⟩
    · simp only [List.cons.injEq] at h2
      obtain ⟨h3, _⟩ := h2
      subst h3
      simp [StateContext.handled, Event.err] at hev
    · rcases List.cons_eq_append_iff.mp h2 with ⟨_, h3⟩ | ⟨pre3, _, h3⟩
      · simp only [List.cons.injEq] at h3
        obtain ⟨h4, h5⟩ := h3
        subst h4
        simp only [saved, Event.err] at hev
        exact ⟨hev, h5⟩
      · simp at h3
  · intro w w1 w2 handler _ _ _ pre post ev e hlog hev
    rcases List.cons_eq_append_iff.mp hlog with ⟨_, h2⟩ | ⟨pre2, _, h2⟩
    · simp only [List.cons.injEq] at h2
      obtain ⟨h3, _⟩ := h2
      subst h3
      simp [StateContext.handled, Event.err] at hev
    · rcases List.cons_eq_append_iff.mp h2 with ⟨_, h3⟩ | ⟨pre3, _, h3⟩
      · simp only [List.cons.injEq] at h3
        obtain ⟨h4, _⟩ := h3
        subst h4
        simp [saved, Event.err] at hev
      · simp at h3
  · intro w w1 w2 handler out _ _ _ ih pre post ev e hlog hev
    rcases List.cons_eq_append_iff.mp hlog with ⟨_, h2⟩ | ⟨pre2, _, h2⟩
    · simp only [List.cons.injEq] at h2
      obtain ⟨h3, _⟩ := h2
      subst h3
      simp [StateContext.handled, Event.err] at hev
    · rcases List.cons_eq_append_iff.mp h2 with ⟨_, h3⟩ | ⟨pre3, _, h3⟩
      · simp only [List.cons.injEq] at h3
        obtain ⟨h4, _⟩ := h3
        subst h4
        simp [saved, Event.err] at hev
      · exact ih pre3 post ev e h3 hev

/-- Every log entry of a returning run of the loop is about the record of the
context. -/
theorem StateContext.Process_log_data (sd : StateData W P) (sh : StateHandler W P H)
    (s : StateContext W P H) (fuel : Nat) (w : W) (out : Outcome W P H)
    (hrun : s.Process sd sh fuel w = some out) :
    ∀ ev ∈ out.2.2, ev.data = s.Data := by
  revert fuel w out
  apply StateContext.Process_induction sd sh s
  · intro w _ ev hev
    simp at hev
  · intro w w1 handler shouldStop e _ _ ev hev
    simp only [List.mem_singleton] at hev
    subst hev
    rfl
  · intro w w1 w2 handler shouldStop e _ _ _ ev hev
    simp only [List.mem_cons, List.mem_singleton, List.not_mem_nil, or_false] at hev
    rcases hev with h | h <;> subst h <;> rfl
  · intro w w1 w2 handler _ _ _ ev hev
    simp only [List.mem_cons, List.mem_singleton, List.not_mem_nil, or_false] at hev
    rcases hev with h | h <;> subst h <;> rfl
  · intro w w1 w2 handler out _ _ _ ih ev hev
    simp only [List.mem_cons] at hev
    rcases hev with h | h | h
    · subst h; rfl
    · subst h; rfl
    · exact ih ev h

/-- Every log entry of a returning `StateService.Process` call is about the
record of the call. -/
theorem StateService.Process_call_log_data (sd : StateData W P) (sh : StateHandler W P H)
    (s : StateService W P H) (fuel : Nat) (data : P) (w : W) (out : Outcome W P H)
    (hrun : s.Process sd sh fuel data w = some out) :
    ∀ ev ∈ out.2.2, ev.data = data := by
  rcases StateService.Process_inv sd sh s fuel data w _ hrun with
    ⟨w1, e1, _, hout⟩ | ⟨w1, r, _, hr, hout⟩
  · subst hout
    intro ev hev
    simp only [List.mem_singleton] at hev
    subst hev
    rfl
  · subst hout
    intro ev hev
    simp only [List.mem_cons] at hev
    rcases hev with h | h
    · subst h; rfl
    · exact StateContext.Process_log_data sd sh (s.stateContext data) fuel w1 r hr ev h

/-- An observation of the program state that neither `Save` of the record nor
the handlers invoked on it change is unchanged by the loop. -/
theorem StateContext.Process_frame {α : Type} (sd : StateData W P)
    (sh : StateHandler W P H) (s : StateContext W P H) (obs : W → α)
    (hsave : ∀ w0, obs (s.repository.Save s.Data w0).1 = obs w0)
    (hhandle : ∀ h w0, obs (sh.IdempotentHandle h s w0).1 = obs w0)
    (fuel : Nat) (w : W) (out : Outcome W P H) (hrun : s.Process sd sh fuel w = some out) :
    obs out.1 = obs w := by
  revert fuel w out
  apply StateContext.Process_induction sd sh s
  · intro w _
    rfl
  · intro w w1 handler shouldStop e _ hr
    have := hhandle handler w
    rw [hr] at this
    exact this
  · intro w w1 w2 handler shouldStop e _ hr hs
    have h1 := hhandle handler w
    rw [hr] at h1
    have h2 := hsave w1
    rw [hs] at h2
    exact h2.trans h1
  · intro w w1 w2 handler _ hr hs
    have h1 := hhandle handler w
    rw [hr] at h1
    have h2 := hsave w1
    rw [hs] at h2
    exact h2.trans h1
  · intro w w1 w2 handler out _ hr hs ih
    have h1 := hhandle handler w
    rw [hr] at h1
    have h2 := hsave w1
    rw [hs] at h2
    exact ih.trans (h2.trans h1)

/-- The same for `StateService.Process`. -/
theorem StateService.Process_call_frame {α : Type} (sd : StateData W P)
    (sh : StateHandler W P H) (s : StateService W P H) (data : P) (obs : W → α)
    (hsave : ∀ w0, obs (s.Repository.Save data w0).1 = obs w0)
    (hhandle : ∀ h w0, obs (sh.IdempotentHandle h (s.stateContext data) w0).1 = obs w0)
    (fuel : Nat) (w : W) (out : Outcome W P H)
    (hrun : s.Process sd sh fuel data w = some out) :
    obs out.1 = obs w := by
  rcases StateService.Process_inv sd sh s fuel data w _ hrun with
    ⟨w1, e1, hs, hout⟩ | ⟨w1, r, hs, hr, hout⟩
  · subst hout
    have h2 := hsave w
    rw [hs] at h2
    exact h2
  · subst hout
    have h2 := hsave w
    rw [hs] at h2
    exact (StateContext.Process_frame sd sh (s.stateContext data) obs hsave hhandle fuel w1 r
      hr).trans h2

/-- The loop over the records: after a prefix processed without error it goes
on with the rest. -/
theorem StateService.recoverRecords_append (sd : StateData W P) (sh : StateHandler W P H)
    (s : StateService W P H) (fuel : Nat) (pre rest : List P) (w wi : W)
    (lp : List (Event P H)) (hpre : ProcessedInOrder sd sh s fuel pre w wi lp) :
    s.recoverRecords sd sh fuel (pre ++ rest) w =
      (s.recoverRecords sd sh fuel rest wi).map fun r => (r.1, r.2.1, lp ++ r.2.2) := by
  induction hpre with
  | nil w =>
    rw [List.nil_append]
    cases s.recoverRecords sd sh fuel rest w <;> simp
  | cons record rest2 w w1 w2 log logs hp _ ih =>
    rw [List.cons_append, StateService.recoverRecords]
    simp only [hp]
    rw [ih]
    cases s.recoverRecords sd sh fuel rest w2 <;> simp

/-- Log entries and frame of a prefix processed without error. -/
theorem ProcessedInOrder.log_data_frame (sd : StateData W P) (sh : StateHandler W P H)
    (s : StateService W P H) (fuel : Nat) (pre : List P) (w wi : W)
    (lp : List (Event P H)) (hpre : ProcessedInOrder sd sh s fuel pre w wi lp) :
    (∀ ev ∈ lp, ev.data ∈ pre) ∧
      ∀ {α : Type} (obs : W → α),
        (∀ d ∈ pre, ∀ w0, obs (s.Repository.Save d w0).1 = obs w0) →
        (∀ d ∈ pre, ∀ h w0, obs (sh.IdempotentHandle h (s.stateContext d) w0).1 = obs w0) →
        obs wi = obs w := by
  induction hpre with
  | nil w => exact ⟨by simp, fun _ _ _ => rfl⟩
  | cons record rest2 w w1 w2 log logs hp _ ih =>
    constructor
    · intro ev hev
      rcases List.mem_append.mp hev with h | h
      · rw [StateService.Process_call_log_data sd sh s fuel record w _ hp ev h]
        exact List.mem_cons_self _ _
      · exact List.mem_cons_of_mem _ (ih.1 ev h)
    · intro α obs hsave hhandle
      have h1 := StateService.Process_call_frame sd sh s record obs
        (hsave record (List.mem_cons_self _ _)) (hhandle record (List.mem_cons_self _ _))
        fuel w _ hp
      have h2 := ih.2 obs (fun d hd => hsave d (List.mem_cons_of_mem _ hd))
        (fun d hd => hhandle d (List.mem_cons_of_mem _ hd))
      exact h2.trans h1

/-- A `TransitTo` that returned no error went along an edge of the registry. -/
theorem StateContext.TransitTo_ok_edge (sd : StateData W P) (s : StateContext W P H)
    (B : String) (w : W) (hok : (s.TransitTo sd B w).2 = none) :
    Edge s.stateHandlerMap (sd.GetState s.Data w) B := by
  unfold Edge
  rw [← GoMap.exist_iff_mem_keys]
  unfold StateContext.TransitTo at hok
  cases hex : (s.stateHandlerMap.index (sd.GetState s.Data w)).CanTransitTo.exist B
  · simp [hex] at hok
  · rfl

/-- A run of `TransitTo` calls moves the state of the record along a path of
the registry, of at least one edge when a call returned no error. -/
theorem TransitRun.path (sd : StateData W P) (s : StateContext W P H)
    (hset : ∀ B w, (s.TransitTo sd B w).2 = none →
      sd.GetState s.Data (s.TransitTo sd B w).1 = B)
    (n : Nat) (w w2 : W) (hrun : TransitRun sd s n w w2) :
    Relation.ReflTransGen (Edge s.stateHandlerMap) (sd.GetState s.Data w)
        (sd.GetState s.Data w2) ∧
      (0 < n → Relation.TransGen (Edge s.stateHandlerMap) (sd.GetState s.Data w)
        (sd.GetState s.Data w2)) := by
  induction hrun with
  | refl w => exact ⟨Relation.ReflTransGen.refl, fun h => absurd h (Nat.lt_irrefl 0)⟩
  | other n w w1 w2 _ hst ih =>
    rw [hst]
    exact ih
  | transit n w w1 B _ hok ih =>
    have hedge := StateContext.TransitTo_ok_edge sd s B w1 hok
    rw [hset B w1 hok]
    exact ⟨ih.1.tail hedge, fun _ => Relation.TransGen.tail' ih.1 hedge⟩

/-- A relation on states that is reflexive, transitive and respected by every
handler invocation holds between the state of the record before and after a
returning run of the loop, when `Save` leaves the state as it is. -/
theorem StateContext.Process_state_rel (sd : StateData W P) (sh : StateHandler W P H)
    (s : StateContext W P H) (R : String → String → Prop)
    (hrefl : ∀ A, R A A) (htrans : ∀ A B C, R A B → R B C → R A C)
    (hsave : ∀ w0, sd.GetState s.Data (s.repository.Save s.Data w0).1 = sd.GetState s.Data w0)
    (hhandle : ∀ h w0, R (sd.GetState s.Data w0)
      (sd.GetState s.Data (sh.IdempotentHandle h s w0).1))
    (fuel : Nat) (w : W) (out : Outcome W P H) (hrun : s.Process sd sh fuel w = some out) :
    R (sd.GetState s.Data w) (sd.GetState s.Data out.1) := by
  revert fuel w out
  apply StateContext.Process_induction sd sh s
  · intro w _
    exact hrefl _
  · intro w w1 handler shouldStop e _ hr
    have := hhandle handler w
    rw [hr] at this
    exact this
  · intro w w1 w2 handler shouldStop e _ hr hs
    have h1 := hhandle handler w
    rw [hr] at h1
    have h2 := hsave w1
    rw [hs] at h2
    show R _ (sd.GetState s.Data w2)
    rw [h2]
    exact h1
  · intro w w1 w2 handler _ hr hs
    have h1 := hhandle handler w
    rw [hr] at h1
    have h2 := hsave w1
    rw [hs] at h2
    show R _ (sd.GetState s.Data w2)
    rw [h2]
    exact h1
  · intro w w1 w2 handler out _ hr hs ih
    have h1 := hhandle handler w
    rw [hr] at h1
    have h2 := hsave w1
    rw [hs] at h2
    rw [h2] at ih
    exact htrans _ _ _ h1 ih

/-- The same for `StateService.Process`. -/
theorem StateService.Process_call_state_rel (sd : StateData W P) (sh : StateHandler W P H)
    (s : StateService W P H) (data : P) (R : String → String → Prop)
    (hrefl : ∀ A, R A A) (htrans : ∀ A B C, R A B → R B C → R A C)
    (hsave : ∀ w0, sd.GetState data (s.Repository.Save data w0).1 = sd.GetState data w0)
    (hhandle : ∀ h w0, R (sd.GetState data w0)
      (sd.GetState data (sh.IdempotentHandle h (s.stateContext data) w0).1))
    (fuel : Nat) (w : W) (out : Outcome W P H)
    (hrun : s.Process sd sh fuel data w = some out) :
    R (sd.GetState data w) (sd.GetState data out.1) := by
  rcases StateService.Process_inv sd sh s fuel data w _ hrun with
    ⟨w1, e1, hs, hout⟩ | ⟨w1, r, hs, hr, hout⟩
  · subst hout
    have h2 := hsave w
    rw [hs] at h2
    show R _ (sd.GetState data w1)
    rw [h2]
    exact hrefl _
  · subst hout
    have h2 := hsave w
    rw [hs] at h2
    have h3 := StateContext.Process_state_rel sd sh (s.stateContext data) R hrefl htrans
      hsave hhandle fuel w1 r hr
    rw [show sd.GetState (s.stateContext data).Data w1 = sd.GetState data w from h2] at h3
    exact h3

theorem TestWorld.deref_of_not_lt (w : TestWorld) (data : Nat) (h : ¬ data < w.heap.length) :
    w.deref data = default := by
  have hle : w.heap.length ≤ data := Nat.le_of_not_lt h
  simp [TestWorld.deref, List.getD_eq_getElem?_getD, List.getElem?_eq_none hle]

theorem TestWorld.deref_assign_self (w : TestWorld) (data : Nat) (v : FakeStateData)
    (h : data < w.heap.length) : (w.assign data v).deref data = v := by
  simp [TestWorld.deref, TestWorld.assign, List.getD_eq_getElem?_getD, h]

theorem TestWorld.deref_assign_State (w : TestWorld) (data : Nat) (v : FakeStateData)
    (hv : v.State = (w.deref data).State) (q : Nat) :
    ((w.assign data v).deref q).State = (w.deref q).State := by
  simp only [TestWorld.deref, TestWorld.assign] at *
  by_cases hq : data = q
  · subst hq
    by_cases hlt : data < w.heap.length
    · simp [List.getD_eq_getElem?_getD, hlt] at hv ⊢
      exact hv
    · have hle : w.heap.length ≤ data := Nat.le_of_not_lt hlt
      have h1 : (w.heap.set data v)[data]? = none :=
        List.getElem?_eq_none (by simpa using hle)
      have h2 : w.heap[data]? = none := List.getElem?_eq_none hle
      simp [List.getD_eq_getElem?_getD, h1, h2]
  · simp [List.getD_eq_getElem?_getD, List.getElem?_set_ne hq]

/-- In the program state of the test, over a registry without an entry for the
empty state name, a `TransitTo(B)` that returned no error leaves the record in
state `B`. -/
theorem TransitTo_test_state (s : StateContext TestWorld Nat TestHandler)
    (h0 : (s.stateHandlerMap.index "").CanTransitTo = none) (B : String) (w : TestWorld)
    (hok : (s.TransitTo FakeStateData.methods B w).2 = none) :
    FakeStateData.methods.GetState s.Data (s.TransitTo FakeStateData.methods B w).1 = B := by
  unfold StateContext.TransitTo at hok ⊢
  cases hex : (s.stateHandlerMap.index (FakeStateData.methods.GetState s.Data w)).CanTransitTo.exist B
  · simp [hex] at hok
  · simp only [hex, Bool.not_true, Bool.false_eq_true, if_false]
    by_cases hlt : s.Data < w.heap.length
    · simp only [FakeStateData.methods, FakeStateData.GetState, FakeStateData.SetState]
      rw [TestWorld.deref_assign_self w s.Data _ hlt]
    · have hd := TestWorld.deref_of_not_lt w s.Data hlt
      have hst : FakeStateData.methods.GetState s.Data w = "" := by
        simp only [FakeStateData.methods, FakeStateData.GetState, hd]
        rfl
      rw [hst, h0] at hex
      simp [GoMap.exist, GoMap.get?] at hex

/-- A `TransitTo` that returned an error left the program state as it was. -/
theorem StateContext.TransitTo_rejected_world (sd : StateData W P) (s : StateContext W P H)
    (B : String) (w : W) (e : GoError) (herr : (s.TransitTo sd B w).2 = some e) :
    (s.TransitTo sd B w).1 = w := by
  unfold StateContext.TransitTo at herr ⊢
  cases hex : (s.stateHandlerMap.index (sd.GetState s.Data w)).CanTransitTo.exist B
  · simp [hex]
  · simp [hex] at herr

/-- The handlers of the test change the state of the record only through
`TransitTo`. -/
theorem TestHandler_transit_only (s : StateContext TestWorld Nat TestHandler)
    (h : TestHandler) (w : TestWorld) :
    ∃ n, TransitRun FakeStateData.methods s n w (TestHandler.methods.IdempotentHandle h s w).1 := by
  cases h with
  | StepAHandler =>
    simp only [TestHandler.methods, StepAHandler.IdempotentHandle]
    split
    · refine ⟨0, TransitRun.other 0 w w _ (TransitRun.refl w) ?_⟩
      simp only [FakeStateData.methods, FakeStateData.GetState]
      apply TestWorld.deref_assign_State
      rfl
    · cases hok : (s.TransitTo FakeStateData.methods "stepB" w).2 with
      | none => exact ⟨1, TransitRun.transit 0 w w "stepB" (TransitRun.refl w) hok⟩
      | some e =>
        rw [StateContext.TransitTo_rejected_world FakeStateData.methods s _ w e hok]
        exact ⟨0, TransitRun.refl w⟩
  | StepBHandler =>
    simp only [TestHandler.methods, StepBHandler.IdempotentHandle]
    split
    · refine ⟨0, TransitRun.other 0 w w _ (TransitRun.refl w) ?_⟩
      simp only [FakeStateData.methods, FakeStateData.GetState]
      apply TestWorld.deref_assign_State
      rfl
    · cases hok : (s.TransitTo FakeStateData.methods "success" w).2 with
      | none => exact ⟨1, TransitRun.transit 0 w w "success" (TransitRun.refl w) hok⟩
      | some e =>
        rw [StateContext.TransitTo_rejected_world FakeStateData.methods s _ w e hok]
        exact ⟨0, TransitRun.refl w⟩

/-- In the test, `Save` leaves the state of every record as it is. -/
theorem InMemoryStateRepository.Save_state (data q : Nat) (w : TestWorld) :
    FakeStateData.methods.GetState q (InMemoryStateRepository.Save data w).1 =
      FakeStateData.methods.GetState q w := rfl

/-- Every destination of `closedHandlerMap` is one of its keys. -/
theorem closedHandlerMap_closed (A B : String) (h : Edge closedHandlerMap A B) :
    B ∈ closedHandlerMap.keys := by
  unfold Edge at h
  by_cases h1 : A = "stepA"
  · subst h1
    have : B = "stepB" := by simpa [closedHandlerMap, GoMap.index, GoMap.get?, GoMap.keys,
      GoMap.entries, List.lookup] using h
    subst this
    decide
  · by_cases h2 : A = "stepB"
    · subst h2
      have : B = "success" := by simpa [closedHandlerMap, GoMap.index, GoMap.get?, GoMap.keys,
        GoMap.entries, List.lookup] using h
      subst this
      decide
    · by_cases h3 : A = "success"
      · subst h3
        simp [closedHandlerMap, GoMap.index, GoMap.get?, GoMap.keys,
          GoMap.entries, List.lookup] at h
      · have e1 : (A == "stepA") = false := by simpa using h1
        have e2 : (A == "stepB") = false := by simpa using h2
        have e3 : (A == "success") = false := by simpa using h3
        simp [closedHandlerMap, GoMap.index, GoMap.get?, GoMap.keys,
          GoMap.entries, List.lookup, e1, e2, e3, default] at h

/-- More fuel does not change what a returning run of the loop returns. -/
theorem StateContext.Process_fuel_mono (sd : StateData W P) (sh : StateHandler W P H)
    (s : StateContext W P H) (k : Nat) :
    ∀ (fuel : Nat) (w : W) (out : Outcome W P H),
      s.Process sd sh fuel w = some out → s.Process sd sh (fuel + k) w = some out := by
  intro fuel
  induction fuel with
  | zero => intro w out h; simp [StateContext.Process] at h
  | succ fuel ih =>
    intro w out h
    rw [show fuel + 1 + k = (fuel + k) + 1 by omega]
    cases hh : s.getHandler sd w with
    | none =>
      rw [StateContext.Process_no_handler sd sh s fuel w hh] at h
      rw [StateContext.Process_no_handler sd sh s (fuel + k) w hh]
      exact h
    | some handler =>
      rcases hr : sh.IdempotentHandle handler s w with ⟨w1, shouldStop, err⟩
      cases err with
      | some e =>
        rw [StateContext.Process_handler_error sd sh s fuel w w1 handler shouldStop e hh hr] at h
        rw [StateContext.Process_handler_error sd sh s (fuel + k) w w1 handler shouldStop e hh hr]
        exact h
      | none =>
        rcases hs : s.repository.Save s.Data w1 with ⟨w2, err2⟩
        cases err2 with
        | some e =>
          rw [StateContext.Process_save_error sd sh s fuel w w1 w2 handler shouldStop e hh hr hs]
            at h
          rw [StateContext.Process_save_error sd sh s (fuel + k) w w1 w2 handler shouldStop e hh
            hr hs]
          exact h
        | none =>
          cases shouldStop with
          | true =>
            rw [StateContext.Process_stop sd sh s fuel w w1 w2 handler hh hr hs] at h
            rw [StateContext.Process_stop sd sh s (fuel + k) w w1 w2 handler hh hr hs]
            exact h
          | false =>
            rw [StateContext.Process_continue sd sh s fuel w w1 w2 handler hh hr hs] at h
            rw [StateContext.Process_continue sd sh s (fuel + k) w w1 w2 handler hh hr hs]
            cases hrec : s.Process sd sh fuel w2 with
            | none => simp [hrec] at h
            | some out2 =>
              rw [ih w2 out2 hrec]
              rw [hrec] at h
              exact h

/-- More fuel does not change what a returning `StateService.Process` call
returns. -/
theorem StateService.Process_call_fuel_mono (sd : StateData W P) (sh : StateHandler W P H)
    (s : StateService W P H) (fuel k : Nat) (data : P) (w : W) (out : Outcome W P H)
    (h : s.Process sd sh fuel data w = some out) :
    s.Process sd sh (fuel + k) data w = some out := by
  unfold StateService.Process at h ⊢
  rcases hs : s.Repository.Save data w with ⟨w1, err⟩
  rw [hs] at h
  cases err with
  | some e => exact h
  | none =>
    simp only at h ⊢
    cases hr : (s.stateContext data).Process sd sh fuel w1 with
    | none => simp [hr] at h
    | some r =>
      rw [StateContext.Process_fuel_mono sd sh (s.stateContext data) k fuel w1 r hr]
      rw [hr] at h
      exact h

/-- More fuel does not change what a returning sweep over the records
returns. -/
theorem StateService.recoverRecords_fuel_mono (sd : StateData W P) (sh : StateHandler W P H)
    (s : StateService W P H) (fuel k : Nat) :
    ∀ (records : List P) (w : W) (out : Outcome W P H),
      s.recoverRecords sd sh fuel records w = some out →
      s.recoverRecords sd sh (fuel + k) records w = some out := by
  intro records
  induction records with
  | nil => intro w out h; exact h
  | cons record rest ih =>
    intro w out h
    rw [StateService.recoverRecords] at h ⊢
    cases hp : s.Process sd sh fuel record w with
    | none => simp [hp] at h
    | some r =>
      obtain ⟨w1, err, log⟩ := r
      rw [StateService.Process_call_fuel_mono sd sh s fuel k record w _ hp]
      rw [hp] at h
      cases err with
      | some e => exact h
      | none =>
        simp only at h ⊢
        cases hrec : s.recoverRecords sd sh fuel rest w1 with
        | none => simp [hrec] at h
        | some r2 =>
          rw [ih w1 r2 hrec]
          rw [hrec] at h
          exact h

/-- More fuel does not change what a returning `FindAndRecover` returns. -/
theorem StateService.FindAndRecover_fuel_mono (sd : StateData W P) (sh : StateHandler W P H)
    (s : StateService W P H) (fuel k : Nat) (w : W) (out : Outcome W P H)
    (h : s.FindAndRecover sd sh fuel w = some out) :
    s.FindAndRecover sd sh (fuel + k) w = some out := by
  unfold StateService.FindAndRecover at h ⊢
  rcases hf : s.Repository.FindUnfinished w with ⟨w1, records, err⟩
  rw [hf] at h
  cases err with
  | some e => exact h
  | none => exact StateService.recoverRecords_fuel_mono sd sh s fuel k records w1 out h

/-- More fuel does not change what the re-runs return. -/
theorem reProcess_fuel_mono (fuel k : Nat) :
    ∀ (calls : Nat) (w : TestWorld) (r : TestWorld × Option GoError × Nat),
      reProcess fuel calls w = some r → reProcess (fuel + k) calls w = some r := by
  intro calls
  induction calls with
  | zero => intro w r h; simp [reProcess] at h
  | succ calls ih =>
    intro w r h
    rw [reProcess] at h ⊢
    cases hp : testService.Process FakeStateData.methods TestHandler.methods fuel 0 w with
    | none => simp [hp] at h
    | some out =>
      obtain ⟨w1, err, log⟩ := out
      rw [StateService.Process_call_fuel_mono _ _ _ fuel k 0 w _ hp]
      rw [hp] at h
      simp only at h ⊢
      split
      · rename_i hc
        rw [if_pos hc] at h
        exact h
      · rename_i hc
        rw [if_neg hc] at h
        cases hrec : reProcess fuel calls w1 with
        | none => simp [hrec] at h
        | some r2 =>
          rw [ih w1 r2 hrec]
          rw [hrec] at h
          exact h

/-- A re-run that ends with enough fuel gives the same with more fuel. -/
theorem reProcess_fuel_eq (fuel k calls : Nat) (w : TestWorld)
    (h : (reProcess fuel calls w).isSome = true) :
    reProcess (fuel + k) calls w = reProcess fuel calls w := by
  cases hr : reProcess fuel calls w with
  | none => simp [hr] at h
  | some r => exact reProcess_fuel_mono fuel k calls w r hr

/-- A `StateService.Process` call that returns with some fuel returns the same
with more fuel. -/
theorem StateService.Process_call_fuel_eq (sd : StateData W P) (sh : StateHandler W P H)
    (s : StateService W P H) (fuel k : Nat) (data : P) (w : W)
    (h : (s.Process sd sh fuel data w).isSome = true) :
    s.Process sd sh (fuel + k) data w = s.Process sd sh fuel data w := by
  cases hr : s.Process sd sh fuel data w with
  | none => simp [hr] at h
  | some out => exact StateService.Process_call_fuel_mono sd sh s fuel k data w out hr

/-- In the log of a returning run of the loop, a handler invocation either
opens the log or directly follows a successful `Save` of the record, and one
that returned no error is directly followed by a `Save` of the record. -/
theorem StateContext.Process_log_order (sd : StateData W P) (sh : StateHandler W P H)
    (s : StateContext W P H) (fuel : Nat) (w : W) (out : Outcome W P H)
    (hrun : s.Process sd sh fuel w = some out) :
    ∀ (pre post : List (Event P H)) (ev : Event P H),
      out.2.2 = pre ++ ev :: post → ev.isHandle = true →
      (pre = [] ∨ ∃ pre2 st, pre = pre2 ++ [Event.save s.Data st none]) ∧
        (ev.err = none → ∃ st r post2, post = Event.save s.Data st r :: post2) := by
  revert fuel w out
  apply StateContext.Process_induction sd sh s
  · intro w _ pre post ev hlog
    simp at hlog
  · intro w w1 handler shouldStop e0 _ _ pre post ev hlog _
    rcases List.cons_eq_append_iff.mp hlog with ⟨hp, h2⟩ | ⟨pre2, _, h2⟩
    · simp only [List.cons.injEq] at h2
      obtain ⟨h3, _⟩ := h2
      subst h3
      exact ⟨Or.inl hp, fun h => by simp [StateContext.handled, Event.err] at h⟩
    · simp at h2
  · intro w w1 w2 handler shouldStop e0 _ _ _ pre post ev hlog hev
    rcases List.cons_eq_append_iff.mp hlog with ⟨hp, h2⟩ | ⟨pre2, _, h2⟩
    · simp only [List.cons.injEq] at h2
      obtain ⟨h3, h4⟩ := h2
      subst h3
      exact ⟨Or.inl hp, fun _ => ⟨_, _, _, h4⟩⟩
    · rcases List.cons_eq_append_iff.mp h2 with ⟨_, h3⟩ | ⟨pre3, _, h3⟩
      · simp only [List.cons.injEq] at h3
        obtain ⟨h4, _⟩ := h3
        subst h4
        simp [saved, Event.isHandle] at hev
      · simp at h3
  · intro w w1 w2 handler _ _ _ pre post ev hlog hev
    rcases List.cons_eq_append_iff.mp hlog with ⟨hp, h2⟩ | ⟨pre2, _, h2⟩
    · simp only [List.cons.injEq] at h2
      obtain ⟨h3, h4⟩ := h2
      subst h3
      exact ⟨Or.inl hp, fun _ => ⟨_, _, _, h4⟩⟩
    · rcases List.cons_eq_append_iff.mp h2 with ⟨_, h3⟩ | ⟨pre3, _, h3⟩
      · simp only [List.cons.injEq] at h3
        obtain ⟨h4, _⟩ := h3
        subst h4
        simp [saved, Event.isHandle] at hev
      · simp at h3
  · intro w w1 w2 handler out _ _ _ ih pre post ev hlog hev
    rcases List.cons_eq_append_iff.mp hlog with ⟨hp, h2⟩ | ⟨pre2, hp2, h2⟩
    · simp only [List.cons.injEq] at h2
      obtain ⟨h3, h4⟩ := h2
      subst h3
      exact ⟨Or.inl hp, fun _ => ⟨_, _, _, h4⟩⟩
    · rcases List.cons_eq_append_iff.mp h2 with ⟨_, h3⟩ | ⟨pre3, hp3, h3⟩
      · simp only [List.cons.injEq] at h3
        obtain ⟨h4, _⟩ := h3
        subst h4
        simp [saved, Event.isHandle] at hev
      · obtain ⟨h5, h6⟩ := ih pre3 post ev h3 hev
        refine ⟨Or.inr ?_, h6⟩
        rcases h5 with h7 | ⟨pre4, st, h7⟩
        · refine ⟨[s.handled sd handler w w1 false none], sd.GetState s.Data w1, ?_⟩
          rw [hp2, hp3, h7]
          rfl
        · refine ⟨s.handled sd handler w w1 false none :: saved sd s.Data w1 none :: pre4, st,
            ?_⟩
          rw [hp2, hp3, h7]
          rfl

/-- The fold of the specification, started from an outcome that has stopped
(an error, or no fuel left), stays there. -/
theorem sweep_fold_stopped (sd : StateData W P) (sh : StateHandler W P H)
    (s : StateService W P H) (fuel : Nat) (records : List P)
    (acc : Option (Outcome W P H))
    (hacc : acc = none ∨ ∃ w e log, acc = some (w, some e, log)) :
    records.foldl (s.sweepStep sd sh fuel) acc = acc := by
  induction records with
  | nil => rfl
  | cons record rest ih =>
    rw [List.foldl_cons]
    rcases hacc with h | ⟨w, e, log, h⟩
    · subst h
      exact ih
    · subst h
      exact ih

/-- The fold of the specification is the loop over the records, with the log
so far put in front. -/
theorem sweep_fold_eq (sd : StateData W P) (sh : StateHandler W P H)
    (s : StateService W P H) (fuel : Nat) :
    ∀ (records : List P) (w : W) (log : List (Event P H)),
      records.foldl (s.sweepStep sd sh fuel) (some (w, none, log)) =
        (s.recoverRecords sd sh fuel records w).map fun r => (r.1, r.2.1, log ++ r.2.2) := by
  intro records
  induction records with
  | nil =>
    intro w log
    simp [StateService.recoverRecords]
  | cons record rest ih =>
    intro w log
    rw [List.foldl_cons, StateService.recoverRecords, StateService.sweepStep]
    cases hp : s.Process sd sh fuel record w with
    | none =>
      simp only [hp, Option.map_none']
      exact sweep_fold_stopped sd sh s fuel rest none (Or.inl rfl)
    | some r =>
      obtain ⟨w1, err, log1⟩ := r
      cases err with
      | some e =>
        simp only [hp, Option.map_some']
        exact sweep_fold_stopped sd sh s fuel rest _ (Or.inr ⟨_, _, _, rfl⟩)
      | none =>
        simp only [hp, Option.map_some']
        rw [ih w1 (log ++ log1)]
        cases s.recoverRecords sd sh fuel rest w1 <;> simp

/-- The loop over the records returns no error exactly when every record was
processed in order without error. -/
theorem StateService.recoverRecords_ok_iff (sd : StateData W P) (sh : StateHandler W P H)
    (s : StateService W P H) (fuel : Nat) :
    ∀ (records : List P) (w w2 : W) (log : List (Event P H)),
      s.recoverRecords sd sh fuel records w = some (w2, none, log) ↔
        ProcessedInOrder sd sh s fuel records w w2 log := by
  intro records
  induction records with
  | nil =>
    intro w w2 log
    constructor
    · intro h
      simp only [StateService.recoverRecords, Option.some.injEq, Prod.mk.injEq, true_and] at h
      obtain ⟨h1, h2⟩ := h
      subst h1 h2
      exact ProcessedInOrder.nil w
    · intro h
      cases h
      rfl
  | cons record rest ih =>
    intro w w2 log
    constructor
    · intro h
      rw [StateService.recoverRecords] at h
      cases hp : s.Process sd sh fuel record w with
      | none => simp [hp] at h
      | some r =>
        obtain ⟨w1, err, log1⟩ := r
        rw [hp] at h
        cases err with
        | some e => simp at h
        | none =>
          simp only at h
          cases hrec : s.recoverRecords sd sh fuel rest w1 with
          | none => simp [hrec] at h
          | some r2 =>
            obtain ⟨w3, err3, log3⟩ := r2
            simp only [hrec, Option.map_some', Option.some.injEq, Prod.mk.injEq] at h
            obtain ⟨h1, h2, h3⟩ := h
            subst h1 h2 h3
            exact ProcessedInOrder.cons record rest w w1 w3 log1 log3 hp ((ih w1 w3 log3).mp hrec)
    · intro h
      cases h with
      | cons _ _ _ w1 _ log1 logs hp hrest =>
        rw [StateService.recoverRecords, hp]
        simp only
        rw [(ih w1 w2 logs).mpr hrest]
        rfl

theorem GoMap.get?_of_not_mem_keys {V : Type} (m : GoMap V) (k : String)
    (h : k ∉ m.keys) : m.get? k = none := by
  have h2 : m.exist k ≠ true := fun hc => h ((GoMap.exist_iff_mem_keys m k).mp hc)
  unfold GoMap.exist at h2
  cases hg : m.get? k with
  | none => rfl
  | some v => simp [hg] at h2

theorem handleCount_cons_cons (sd : StateData W P) (s : StateContext W P H) (handler : H)
    (w w1 : W) (stop : Bool) (e1 e2 : Option GoError) (log : List (Event P H)) :
    handleCount (s.handled sd handler w w1 stop e1 :: saved sd s.Data w1 e2 :: log) =
      handleCount log + 1 := by
  simp [handleCount, StateContext.handled, saved, Event.isHandle, List.filter]

/-- A state whose descriptor has a handler is one of `handlerStates`. -/
theorem mem_handlerStates (registry : GoMap (StateDesc H)) (X : String)
    (h : (registry.index X).Handler.isSome = true) : X ∈ handlerStates registry := by
  unfold handlerStates
  rw [List.mem_filter]
  refine ⟨?_, h⟩
  rw [List.mem_dedup]
  by_contra hX
  have hg := GoMap.get?_of_not_mem_keys registry X hX
  simp [GoMap.index, hg, default] at h

/-- The loop returns within as many handler invocations as there are states in
`avail`, a duplicate-free list that holds every state with a handler that can
be reached from the current state, when the graph is acyclic and every
handler invocation after which the loop goes on has moved the state along at
least one edge. -/
theorem StateContext.Process_bounded (sd : StateData W P) (sh : StateHandler W P H)
    (s : StateContext W P H)
    (hacyclic : ∀ A, ¬ Relation.TransGen (Edge s.stateHandlerMap) A A)
    (hsave : ∀ w0, sd.GetState s.Data (s.repository.Save s.Data w0).1 = sd.GetState s.Data w0)
    (hmove : ∀ h w0, (sh.IdempotentHandle h s w0).2 = (false, none) →
      Relation.TransGen (Edge s.stateHandlerMap) (sd.GetState s.Data w0)
        (sd.GetState s.Data (sh.IdempotentHandle h s w0).1)) :
    ∀ (n : Nat) (avail : List String) (w : W), avail.length = n → avail.Nodup →
      (∀ X, Relation.ReflTransGen (Edge s.stateHandlerMap) (sd.GetState s.Data w) X →
        (s.stateHandlerMap.index X).Handler.isSome = true → X ∈ avail) →
      ∃ out, s.Process sd sh (n + 1) w = some out ∧ handleCount out.2.2 ≤ n := by
  intro n
  induction n with
  | zero =>
    intro avail w hlen _ havail
    cases hh : s.getHandler sd w with
    | none =>
      exact ⟨_, StateContext.Process_no_handler sd sh s 0 w hh, by simp [handleCount]⟩
    | some handler =>
      have hin := havail _ Relation.ReflTransGen.refl
        (by unfold StateContext.getHandler at hh; rw [hh]; rfl)
      rw [List.length_eq_zero.mp hlen] at hin
      simp at hin
  | succ m ih =>
    intro avail w hlen hnodup havail
    cases hh : s.getHandler sd w with
    | none =>
      exact ⟨_, StateContext.Process_no_handler sd sh s (m + 1) w hh, by simp [handleCount]⟩
    | some handler =>
      have hin := havail _ Relation.ReflTransGen.refl
        (by unfold StateContext.getHandler at hh; rw [hh]; rfl)
      rcases hr : sh.IdempotentHandle handler s w with ⟨w1, shouldStop, err⟩
      cases err with
      | some e =>
        refine ⟨_, StateContext.Process_handler_error sd sh s (m + 1) w w1 handler shouldStop e
          hh hr, ?_⟩
        simp [handleCount, StateContext.handled, Event.isHandle, List.filter]
      | none =>
        rcases hs : s.repository.Save s.Data w1 with ⟨w2, err2⟩
        cases err2 with
        | some e =>
          refine ⟨_, StateContext.Process_save_error sd sh s (m + 1) w w1 w2 handler shouldStop
            e hh hr hs, ?_⟩
          rw [handleCount_cons_cons]
          simp [handleCount]
        | none =>
          cases shouldStop with
          | true =>
            refine ⟨_, StateContext.Process_stop sd sh s (m + 1) w w1 w2 handler hh hr hs, ?_⟩
            rw [handleCount_cons_cons]
            simp [handleCount]
          | false =>
            have hw2 : sd.GetState s.Data w2 = sd.GetState s.Data w1 := by
              have := hsave w1
              rw [hs] at this
              exact this
            have hstep : Relation.TransGen (Edge s.stateHandlerMap) (sd.GetState s.Data w)
                (sd.GetState s.Data w2) := by
              have := hmove handler w (by rw [hr])
              rw [hr] at this
              rw [hw2]
              exact this
            have havail2 : ∀ X, Relation.ReflTransGen (Edge s.stateHandlerMap)
                (sd.GetState s.Data w2) X →
                (s.stateHandlerMap.index X).Handler.isSome = true →
                X ∈ avail.erase (sd.GetState s.Data w) := by
              intro X hX hsome
              have hne : X ≠ sd.GetState s.Data w := by
                intro hc
                rw [hc] at hX
                exact hacyclic _ (Relation.TransGen.trans_left hstep hX)
              exact (List.mem_erase_of_ne hne).mpr
                (havail X (hstep.to_reflTransGen.trans hX) hsome)
            obtain ⟨out2, hout2, hcount⟩ := ih (avail.erase (sd.GetState s.Data w)) w2
              (by rw [List.length_erase_of_mem hin, hlen]; rfl) (hnodup.erase _) havail2
            refine ⟨(out2.1, out2.2.1, s.handled sd handler w w1 false none ::
              saved sd s.Data w1 none :: out2.2.2), ?_, ?_⟩
            · rw [StateContext.Process_continue sd sh s (m + 1) w w1 w2 handler hh hr hs,
                hout2]
              rfl
            · show handleCount (s.handled sd handler w w1 false none ::
                saved sd s.Data w1 none :: out2.2.2) ≤ m + 1
              rw [handleCount_cons_cons]
              omega

/-- The edges of the test registry. -/
theorem testHandlerMap_edge (A B : String) (h : Edge testHandlerMap A B) :
    (A = "stepA" ∧ B = "stepB") ∨ (A = "stepB" ∧ B = "success") := by
  unfold Edge at h
  by_cases h1 : A = "stepA"
  · subst h1
    left
    have : B = "stepB" := by simpa [testHandlerMap, GoMap.index, GoMap.get?, GoMap.keys,
      GoMap.entries, List.lookup] using h
    exact ⟨rfl, this⟩
  · by_cases h2 : A = "stepB"
    · subst h2
      right
      have : B = "success" := by simpa [testHandlerMap, GoMap.index, GoMap.get?, GoMap.keys,
        GoMap.entries, List.lookup] using h
      exact ⟨rfl, this⟩
    · have e1 : (A == "stepA") = false := by simpa using h1
      have e2 : (A == "stepB") = false := by simpa using h2
      simp [testHandlerMap, GoMap.index, GoMap.get?, GoMap.keys,
        GoMap.entries, List.lookup, e1, e2, default] at h

/-- The test registry is acyclic: every edge goes up in the order `stepA`,
`stepB`, anything else. -/
theorem testHandlerMap_acyclic (A : String) :
    ¬ Relation.TransGen (Edge testHandlerMap) A A := by
  have hrank : ∀ X Y, Relation.TransGen (Edge testHandlerMap) X Y →
      (if X = "stepA" then 0 else if X = "stepB" then 1 else 2) <
        (if Y = "stepA" then 0 else if Y = "stepB" then 1 else 2) := by
    intro X Y hXY
    induction hXY with
    | single hedge =>
      rcases testHandlerMap_edge _ _ hedge with ⟨h1, h2⟩ | ⟨h1, h2⟩ <;> subst h1 h2 <;> decide
    | tail _ hedge ih =>
      rcases testHandlerMap_edge _ _ hedge with ⟨h1, h2⟩ | ⟨h1, h2⟩
      · subst h1 h2
        simp at ih
      · subst h1 h2
        exact Nat.lt_trans ih (by decide)
  intro hc
  exact Nat.lt_irrefl _ (hrank A A hc)

/-- An invocation of a test handler that returns `(false, nil)` is one
`TransitTo` call that returned no error. -/
theorem TestHandler_moves (s : StateContext TestWorld Nat TestHandler)
    (h : TestHandler) (w : TestWorld)
    (hres : (TestHandler.methods.IdempotentHandle h s w).2 = (false, none)) :
    ∃ n, 0 < n ∧
      TransitRun FakeStateData.methods s n w (TestHandler.methods.IdempotentHandle h s w).1 := by
  cases h with
  | StepAHandler =>
    simp only [TestHandler.methods, StepAHandler.IdempotentHandle] at hres ⊢
    split at hres
    · simp at hres
    · rename_i hc
      simp only [hc, Bool.false_eq_true, if_false]
      simp only [Prod.mk.injEq, true_and] at hres
      exact ⟨1, Nat.one_pos, TransitRun.transit 0 w w "stepB" (TransitRun.refl w) hres⟩
  | StepBHandler =>
    simp only [TestHandler.methods, StepBHandler.IdempotentHandle] at hres ⊢
    split at hres
    · simp at hres
    · rename_i hc
      simp only [hc, Bool.false_eq_true, if_false]
      simp only [Prod.mk.injEq, true_and] at hres
      exact ⟨1, Nat.one_pos, TransitRun.transit 0 w w "success" (TransitRun.refl w) hres⟩

/-- In the log of a returning run of the loop, a handler invocation that
returned no error is directly followed by a `Save` of the record in the state
the invocation left, and every `Save` directly follows such an invocation. -/
theorem StateContext.Process_log_saves (sd : StateData W P) (sh : StateHandler W P H)
    (s : StateContext W P H) (fuel : Nat) (w : W) (out : Outcome W P H)
    (hrun : s.Process sd sh fuel w = some out) :
    (∀ (pre post : List (Event P H)) (h : H) (d : P) (b a : String) (stop : Bool),
        out.2.2 = pre ++ Event.handle h d b a stop none :: post →
        ∃ r post2, post = Event.save s.Data a r :: post2) ∧
      (∀ (pre post : List (Event P H)) (d : P) (st : String) (r : Option GoError),
        out.2.2 = pre ++ Event.save d st r :: post →
        ∃ pre2 h b stop, pre = pre2 ++ [Event.handle h s.Data b st stop none]) := by
  revert fuel w out
  apply StateContext.Process_induction sd sh s
  · intro w _
    constructor
    · intro pre post h d b a stop hlog
      simp at hlog
    · intro pre post d st r hlog
      simp at hlog
  · intro w w1 handler shouldStop e0 _ _
    constructor
    · intro pre post h d b a stop hlog
      rcases List.cons_eq_append_iff.mp hlog with ⟨_, h2⟩ | ⟨pre2, _, h2⟩
      · simp [StateContext.handled] at h2
      · simp at h2
    · intro pre post d st r hlog
      rcases List.cons_eq_append_iff.mp hlog with ⟨_, h2⟩ | ⟨pre2, _, h2⟩
      · simp [StateContext.handled] at h2
      · simp at h2
  · intro w w1 w2 handler shouldStop e0 _ _ _
    constructor
    · intro pre post h d b a stop hlog
      rcases List.cons_eq_append_iff.mp hlog with ⟨_, h2⟩ | ⟨pre2, _, h2⟩
      · simp only [StateContext.handled, saved, List.cons.injEq, Event.handle.injEq] at h2
        obtain ⟨⟨_, _, _, ha, _, _⟩, h4⟩ := h2
        exact ⟨_, _, by rw [h4, ha]⟩
      · rcases List.cons_eq_append_iff.mp h2 with ⟨_, h3⟩ | ⟨pre3, _, h3⟩
        · simp [saved] at h3
        · simp at h3
    · intro pre post d st r hlog
      rcases List.cons_eq_append_iff.mp hlog with ⟨_, h2⟩ | ⟨pre2, hp2, h2⟩
      · simp [StateContext.handled] at h2
      · rcases List.cons_eq_append_iff.mp h2 with ⟨hp3, h3⟩ | ⟨pre3, _, h3⟩
        · simp only [saved, List.cons.injEq, Event.save.injEq] at h3
          obtain ⟨⟨_, hst, _⟩, _⟩ := h3
          refine ⟨[], handler, sd.GetState s.Data w, shouldStop, ?_⟩
          rw [hp2, hp3, hst]
          rfl
        · simp at h3
  · intro w w1 w2 handler _ _ _
    constructor
    · intro pre post h d b a stop hlog
      rcases List.cons_eq_append_iff.mp hlog with ⟨_, h2⟩ | ⟨pre2, _, h2⟩
      · simp only [StateContext.handled, saved, List.cons.injEq, Event.handle.injEq] at h2
        obtain ⟨⟨_, _, _, ha, _, _⟩, h4⟩ := h2
        exact ⟨_, _, by rw [h4, ha]⟩
      · rcases List.cons_eq_append_iff.mp h2 with ⟨_, h3⟩ | ⟨pre3, _, h3⟩
        · simp [saved] at h3
        · simp at h3
    · intro pre post d st r hlog
      rcases List.cons_eq_append_iff.mp hlog with ⟨_, h2⟩ | ⟨pre2, hp2, h2⟩
      · simp [StateContext.handled] at h2
      · rcases List.cons_eq_append_iff.mp h2 with ⟨hp3, h3⟩ | ⟨pre3, _, h3⟩
        · simp only [saved, List.cons.injEq, Event.save.injEq] at h3
          obtain ⟨⟨_, hst, _⟩, _⟩ := h3
          refine ⟨[], handler, sd.GetState s.Data w, true, ?_⟩
          rw [hp2, hp3, hst]
          rfl
        · simp at h3
  · intro w w1 w2 handler out _ _ _ ih
    obtain ⟨ih1, ih2⟩ := ih
    constructor
    · intro pre post h d b a stop hlog
      rcases List.cons_eq_append_iff.mp hlog with ⟨_, h2⟩ | ⟨pre2, _, h2⟩
      · simp only [StateContext.handled, saved, List.cons.injEq, Event.handle.injEq] at h2
        obtain ⟨⟨_, _, _, ha, _, _⟩, h4⟩ := h2
        exact ⟨_, _, by rw [h4, ha]⟩
      · rcases List.cons_eq_append_iff.mp h2 with ⟨_, h3⟩ | ⟨pre3, _, h3⟩
        · simp [saved] at h3
        · exact ih1 pre3 post h d b a stop h3
    · intro pre post d st r hlog
      rcases List.cons_eq_append_iff.mp hlog with ⟨_, h2⟩ | ⟨pre2, hp2, h2⟩
      · simp [StateContext.handled] at h2
      · rcases List.cons_eq_append_iff.mp h2 with ⟨hp3, h3⟩ | ⟨pre3, hp3, h3⟩
        · simp only [saved, List.cons.injEq, Event.save.injEq] at h3
          obtain ⟨⟨_, hst, _⟩, _⟩ := h3
          refine ⟨[], handler, sd.GetState s.Data w, false, ?_⟩
          rw [hp2, hp3, hst]
          rfl
        · obtain ⟨pre4, h, b, stop, hp4⟩ := ih2 pre3 post d st r h3
          refine ⟨s.handled sd handler w w1 false none :: saved sd s.Data w1 none :: pre4,
            h, b, stop, ?_⟩
          rw [hp2, hp3, hp4]
          rfl

/-- The handlers of the test, run in a `CopyWorld`, leave the stored copies
and the identities of the records as they are. -/
theorem copyingHandlers_frame (s : StateContext CopyWorld Nat TestHandler)
    (h : TestHandler) (w : CopyWorld) (data : Nat) :
    copyingRepository.content data (copyingHandlers.IdempotentHandle h s w).1 =
      copyingRepository.content data w := by
  simp only [copyingRepository.content, copyingHandlers, Prod.mk.injEq, true_and]
  cases h with
  | StepAHandler => exact (StepAHandler_frame _ w.mem data).2
  | StepBHandler => exact (StepBHandler_frame _ w.mem data).2

/-! ## The transition guard -/

/-- C1. Guard correctness: `TransitTo(B)` on a record in state `A` returns no
error if and only if `B` is a key of `registry[A].CanTransitTo`; when it
returns no error the program state afterwards is the one `SetState(B)`
produces, so the state of the record is `B` (`hset`: `GetState` reads what
`SetState(B)` wrote). -/
theorem TransitTo_guard_correct (sd : StateData W P) (s : StateContext W P H)
    (B : String) (w : W)
    (hset : sd.GetState s.Data (sd.SetState s.Data B w) = B) :
    ((s.TransitTo sd B w).2 = none ↔
        B ∈ (s.stateHandlerMap.index (sd.GetState s.Data w)).CanTransitTo.keys) ∧
      ((s.TransitTo sd B w).2 = none →
        (s.TransitTo sd B w).1 = sd.SetState s.Data B w ∧
        sd.GetState s.Data (s.TransitTo sd B w).1 = B) := by
  rw [← GoMap.exist_iff_mem_keys]
  unfold StateContext.TransitTo
  cases hex : (s.stateHandlerMap.index (sd.GetState s.Data w)).CanTransitTo.exist B
  · simp [hex]
  · simp [hex, hset]

/-- Witness of C1: `data1` (state `stepA`) and the target `stepB` of the test
registry. -/
theorem TransitTo_guard_correct_witness :
    FakeStateData.methods.GetState (testContext 0).Data
        (FakeStateData.methods.SetState (testContext 0).Data "stepB" testWorld) = "stepB" ∧
      ((((testContext 0).TransitTo FakeStateData.methods "stepB" testWorld).2 = none ↔
        "stepB" ∈ ((testContext 0).stateHandlerMap.index
          (FakeStateData.methods.GetState (testContext 0).Data testWorld)).CanTransitTo.keys) ∧
      (((testContext 0).TransitTo FakeStateData.methods "stepB" testWorld).2 = none →
        ((testContext 0).TransitTo FakeStateData.methods "stepB" testWorld).1 =
            FakeStateData.methods.SetState (testContext 0).Data "stepB" testWorld ∧
        FakeStateData.methods.GetState (testContext 0).Data
            ((testContext 0).TransitTo FakeStateData.methods "stepB" testWorld).1 = "stepB")) :=
  ⟨by decide,
    TransitTo_guard_correct FakeStateData.methods (testContext 0) "stepB" testWorld
      (by decide)⟩

/-- C2. A rejected transition is atomic and reports the edge: when `B` is not
a key of `registry[A].CanTransitTo`, `TransitTo(B)` returns the
`IllegalTransitError` with `SrcState = A` and `DstState = B` and the program
state, hence the state of the record, is what it was. -/
theorem TransitTo_rejected (sd : StateData W P) (s : StateContext W P H)
    (B : String) (w : W)
    (hB : B ∉ (s.stateHandlerMap.index (sd.GetState s.Data w)).CanTransitTo.keys) :
    s.TransitTo sd B w =
        (w, some (GoError.IllegalTransitError (sd.GetState s.Data w) B)) ∧
      sd.GetState s.Data (s.TransitTo sd B w).1 = sd.GetState s.Data w := by
  rw [← GoMap.exist_iff_mem_keys] at hB
  unfold StateContext.TransitTo
  simp [hB]

/-- Witness of C2: `data1` (state `stepA`) cannot go to `success` in the test
registry. -/
theorem TransitTo_rejected_witness :
    "success" ∉ ((testContext 0).stateHandlerMap.index
        (FakeStateData.methods.GetState (testContext 0).Data testWorld)).CanTransitTo.keys ∧
      ((testContext 0).TransitTo FakeStateData.methods "success" testWorld =
        (testWorld, some (GoError.IllegalTransitError
          (FakeStateData.methods.GetState (testContext 0).Data testWorld) "success")) ∧
      FakeStateData.methods.GetState (testContext 0).Data
          ((testContext 0).TransitTo FakeStateData.methods "success" testWorld).1 =
        FakeStateData.methods.GetState (testContext 0).Data testWorld) :=
  ⟨by decide,
    TransitTo_rejected FakeStateData.methods (testContext 0) "success" testWorld
      (by decide)⟩

/-! ## Failures inside `Process` -/

/-- C3 (amended). When a handler returns an error `e` during
`StateService.Process`, `Process` returns `e`, the state of the record after
the call is the state `a` in which the failing invocation left it, and that
invocation started from the state `b` written by the successful `Save`
directly before it; when that `Save` is the initial one, `b` is the state
before the call.  (`hsave`: `Save` does not change the state of the record.) -/
theorem Process_handler_error_state (sd : StateData W P) (sh : StateHandler W P H)
    (s : StateService W P H) (fuel : Nat) (data : P) (w w2 : W) (err : Option GoError)
    (log pre : List (Event P H)) (h : H) (d : P) (b a : String) (stop : Bool) (e : GoError)
    (hsave : ∀ w0, sd.GetState data (s.Repository.Save data w0).1 = sd.GetState data w0)
    (hrun : s.Process sd sh fuel data w = some (w2, err, log))
    (hlog : log = pre ++ [Event.handle h d b a stop (some e)]) :
    err = some e ∧ sd.GetState data w2 = a ∧
      (∃ pre2, pre = pre2 ++ [Event.save data b none]) ∧
      (pre.length = 1 → b = sd.GetState data w) := by
  rcases StateService.Process_inv sd sh s fuel data w _ hrun with
    ⟨w1, e1, _, hout⟩ | ⟨w1, r, hs, hr, hout⟩
  · simp only [Prod.mk.injEq] at hout
    obtain ⟨_, _, hl⟩ := hout
    rw [hlog] at hl
    rcases cons_eq_append_singleton _ _ _ _ hl.symm with ⟨_, _, hx⟩ | ⟨pre2, hl2, _⟩
    · simp [saved] at hx
    · simp at hl2
  · simp only [Prod.mk.injEq] at hout
    obtain ⟨hw, he, hl⟩ := hout
    rw [hlog] at hl
    rcases cons_eq_append_singleton _ _ _ _ hl.symm with ⟨_, _, hx⟩ | ⟨pre2, hl2, hpre⟩
    · simp [saved] at hx
    · have hw1 : sd.GetState data w1 = sd.GetState data w := by
        have := hsave w
        rw [hs] at this
        exact this
      obtain ⟨h1, h2, h3⟩ := StateContext.Process_failed_handle sd sh (s.stateContext data)
        hsave fuel w1 r hr pre2 h d b a stop e hl2
      refine ⟨by rw [he, h1], by rw [hw]; exact h2, ?_, ?_⟩
      · rcases h3 with ⟨hp, hb⟩ | ⟨pre3, hp3⟩
        · refine ⟨[], ?_⟩
          rw [hpre, hp, hb]
          simp [saved, StateService.stateContext, hw1]
        · refine ⟨saved sd data w none :: pre3, ?_⟩
          rw [hpre, hp3]
          simp [StateService.stateContext]
      · intro hlen
        rcases h3 with ⟨_, hb⟩ | ⟨pre3, hp3⟩
        · rw [hb]
          exact hw1
        · rw [hpre, hp3] at hlen
          simp at hlen

/-- Witness of C3: the first `Process` call of the test on `data1`, whose
`StepAHandler` invocation fails. -/
theorem Process_handler_error_state_witness :
    (∀ w0, FakeStateData.methods.GetState 0 (testService.Repository.Save 0 w0).1 =
        FakeStateData.methods.GetState 0 w0) ∧
      testService.Process FakeStateData.methods TestHandler.methods 1 0 testWorld =
        some ({ heap := [{ data1 with ShouldFailure := false }, data2, data3],
                repo := some [("1", 0)] },
          some (GoError.errorString "mock failure"),
          [Event.save 0 "stepA" none] ++
            [Event.handle TestHandler.StepAHandler 0 "stepA" "stepA" true
              (some (GoError.errorString "mock failure"))]) ∧
      (some (GoError.errorString "mock failure") = some (GoError.errorString "mock failure") ∧
        FakeStateData.methods.GetState 0
          { heap := [{ data1 with ShouldFailure := false }, data2, data3],
            repo := some [("1", 0)] } = "stepA" ∧
        (∃ pre2, [Event.save 0 "stepA" none] =
          pre2 ++ [(Event.save 0 "stepA" none : Event Nat TestHandler)]) ∧
        ([(Event.save 0 "stepA" none : Event Nat TestHandler)].length = 1 →
          "stepA" = FakeStateData.methods.GetState 0 testWorld)) :=
  ⟨fun _ => rfl, rfl,
    Process_handler_error_state FakeStateData.methods TestHandler.methods testService 1 0
      testWorld _ _ _ _ _ _ _ _ _ _ (fun _ => rfl) rfl rfl⟩

/-- Counterexample to C3 as stated: over `stuckHandlerMap`, `Process` on
`data3` (state `stepA`) runs `StepAHandler` (moves to `stepB`, saved), then
`StepBHandler` returns the `IllegalTransitError`; `Process` returns it and the
record is in state `stepB`, not `stepA`. -/
theorem Process_handler_error_state_counterexample :
    FakeStateData.methods.GetState 2 testWorld = "stepA" ∧
      (stuckService.Process FakeStateData.methods TestHandler.methods 2 2 testWorld).map
          (fun out => (FakeStateData.methods.GetState 2 out.1, out.2.1, out.2.2)) =
        some ("stepB", some (GoError.IllegalTransitError "stepB" "success"),
          [Event.save 2 "stepA" none,
           Event.handle TestHandler.StepAHandler 2 "stepA" "stepB" false none,
           Event.save 2 "stepB" none,
           Event.handle TestHandler.StepBHandler 2 "stepB" "stepB" false
             (some (GoError.IllegalTransitError "stepB" "success"))]) := by
  decide

/-- C4 (amended). In a returning run of `StateService.Process`, with or
without an error, the `Save` calls are the initial `Save` of the record in its
initial state (the first log entry) and, directly after each handler
invocation that returned no error, one `Save` of the record in the state that
invocation left, and no others; an entry that returned an error is the last
one and its error is returned.  Hence, for a repository that keeps copies
(`hok`: a successful `Save` stores the state of the record; `hfail`: a failed
`Save` stores nothing; `hhandle`: handlers do not write to the repository),
the content after the call is the content before the call updated by the
states of the `Save` calls that returned no error, in order. -/
theorem Process_repository_content (sd : StateData W P)
    (sh : StateHandler W P H) (s : StateService W P H) (fuel : Nat) (data : P) (w w2 : W)
    (err : Option GoError) (log : List (Event P H))
    (hrun : s.Process sd sh fuel data w = some (w2, err, log)) :
    (∃ r rest, log = Event.save data (sd.GetState data w) r :: rest) ∧
      (∀ (pre post : List (Event P H)) (h : H) (d : P) (b a : String) (stop : Bool),
        log = pre ++ Event.handle h d b a stop none :: post →
        ∃ r post2, post = Event.save data a r :: post2) ∧
      (∀ (pre post : List (Event P H)) (d : P) (st : String) (r : Option GoError),
        pre ≠ [] → log = pre ++ Event.save d st r :: post →
        ∃ pre2 h b stop, pre = pre2 ++ [Event.handle h data b st stop none]) ∧
      (∀ (pre post : List (Event P H)) (ev : Event P H) (e : GoError),
        log = pre ++ ev :: post → ev.err = some e → post = [] ∧ err = some e) ∧
      (∀ {C : Type} (content : W → C) (store : String → C → C),
        (∀ w0 w1, s.Repository.Save data w0 = (w1, none) →
          content w1 = store (sd.GetState data w0) (content w0)) →
        (∀ w0 w1 e, s.Repository.Save data w0 = (w1, some e) → content w1 = content w0) →
        (∀ h w0, content (sh.IdempotentHandle h (s.stateContext data) w0).1 = content w0) →
        content w2 = (savedStates log).foldl (fun c st => store st c) (content w)) := by
  rcases StateService.Process_inv sd sh s fuel data w _ hrun with
    ⟨w1, e1, hs, hout⟩ | ⟨w1, r, hs, hr, hout⟩
  · simp only [Prod.mk.injEq] at hout
    obtain ⟨hw, he, hl⟩ := hout
    subst hw he hl
    refine ⟨⟨_, _, rfl⟩, ?_, ?_, ?_, ?_⟩
    · intro pre post h d b a stop hlog
      rcases List.cons_eq_append_iff.mp hlog with ⟨_, h2⟩ | ⟨pre2, _, h2⟩
      · simp [saved] at h2
      · simp at h2
    · intro pre post d st r hne hlog
      rcases List.cons_eq_append_iff.mp hlog with ⟨h1, _⟩ | ⟨pre2, _, h2⟩
      · exact absurd h1 hne
      · simp at h2
    · intro pre post ev e hlog hev
      rcases List.cons_eq_append_iff.mp hlog with ⟨_, h2⟩ | ⟨pre2, _, h2⟩
      · simp only [List.cons.injEq] at h2
        obtain ⟨h3, h4⟩ := h2
        subst h3
        simp only [saved, Event.err] at hev
        exact ⟨h4, hev⟩
      · simp at h2
    · intro C content store _ hfail _
      simpa [savedStates, saved] using hfail w w2 e1 hs
  · simp only [Prod.mk.injEq] at hout
    obtain ⟨hw, he, hl⟩ := hout
    subst hw he hl
    obtain ⟨hafter, hbefore⟩ := StateContext.Process_log_saves sd sh (s.stateContext data)
      fuel w1 r hr
    refine ⟨⟨_, _, rfl⟩, ?_, ?_, ?_, ?_⟩
    · intro pre post h d b a stop hlog
      rcases List.cons_eq_append_iff.mp hlog with ⟨_, h2⟩ | ⟨pre2, _, h2⟩
      · simp [saved] at h2
      · exact hafter pre2 post h d b a stop h2
    · intro pre post d st r0 hne hlog
      rcases List.cons_eq_append_iff.mp hlog with ⟨h1, _⟩ | ⟨pre2, hp2, h2⟩
      · exact absurd h1 hne
      · obtain ⟨pre3, h, b, stop, hp3⟩ := hbefore pre2 post d st r0 h2
        exact ⟨saved sd data w none :: pre3, h, b, stop, by rw [hp2, hp3]; rfl⟩
    · intro pre post ev e hlog hev
      rcases List.cons_eq_append_iff.mp hlog with ⟨_, h2⟩ | ⟨pre2, _, h2⟩
      · simp only [List.cons.injEq] at h2
        obtain ⟨h3, _⟩ := h2
        subst h3
        simp [saved, Event.err] at hev
      · obtain ⟨h5, h6⟩ := StateContext.Process_error_last sd sh (s.stateContext data) fuel w1
          r hr pre2 post ev e h2 hev
        exact ⟨h6, h5⟩
    · intro C content store hok hfail hhandle
      have h1 := StateContext.Process_content sd sh (s.stateContext data) content store
        hok hfail hhandle fuel w1 r hr
      simp only [savedStates, saved, List.foldl_cons]
      rw [h1, hok w w1 hs]

/-- Witness of C4: over `stuckHandlerMap` and the repository that keeps copies,
`Process` on `data3`: `StepAHandler` moves the record to `stepB`, which is
saved, then `StepBHandler` returns the `IllegalTransitError`.  Before the call
nothing is stored for the identity `3`; after it the stored state is `stepB`,
the state of the last `Save`, neither nothing nor the initial `stepA`. -/
theorem Process_repository_content_witness :
    copyingService.Process CopyWorld.methods copyingHandlers 2 2 copyWorld =
        some ({ mem := { heap := [data1, data2, { data3 with State := "stepB" }],
                         repo := some [] },
                stored := some [("3", "stepB")] },
          some (GoError.IllegalTransitError "stepB" "success"),
          [Event.save 2 "stepA" none,
           Event.handle TestHandler.StepAHandler 2 "stepA" "stepB" false none,
           Event.save 2 "stepB" none,
           Event.handle TestHandler.StepBHandler 2 "stepB" "stepB" false
             (some (GoError.IllegalTransitError "stepB" "success"))]) ∧
      (∀ w0 w1, copyingService.Repository.Save 2 w0 = (w1, none) →
        copyingRepository.content 2 w1 =
          copyingRepository.store (CopyWorld.methods.GetState 2 w0)
            (copyingRepository.content 2 w0)) ∧
      (∀ w0 w1 e, copyingService.Repository.Save 2 w0 = (w1, some e) →
        copyingRepository.content 2 w1 = copyingRepository.content 2 w0) ∧
      (∀ h w0, copyingRepository.content 2
          (copyingHandlers.IdempotentHandle h (copyingService.stateContext 2) w0).1 =
        copyingRepository.content 2 w0) ∧
      copyingRepository.content 2 copyWorld = (some [], "3") ∧
      savedStates
          [Event.save 2 "stepA" none,
           Event.handle TestHandler.StepAHandler 2 "stepA" "stepB" false none,
           Event.save 2 "stepB" none,
           (Event.handle TestHandler.StepBHandler 2 "stepB" "stepB" false
             (some (GoError.IllegalTransitError "stepB" "success")) :
             Event Nat TestHandler)] = ["stepA", "stepB"] ∧
      copyingRepository.content 2
          { mem := { heap := [data1, data2, { data3 with State := "stepB" }],
                     repo := some [] },
            stored := some [("3", "stepB")] } =
        (savedStates
          [Event.save 2 "stepA" none,
           Event.handle TestHandler.StepAHandler 2 "stepA" "stepB" false none,
           Event.save 2 "stepB" none,
           (Event.handle TestHandler.StepBHandler 2 "stepB" "stepB" false
             (some (GoError.IllegalTransitError "stepB" "success")) :
             Event Nat TestHandler)]).foldl
          (fun c st => copyingRepository.store st c)
          (copyingRepository.content 2 copyWorld) ∧
      copyingRepository.content 2
          { mem := { heap := [data1, data2, { data3 with State := "stepB" }],
                     repo := some [] },
            stored := some [("3", "stepB")] } = (some [("3", "stepB")], "3") :=
  have hok : ∀ w0 w1, copyingService.Repository.Save 2 w0 = (w1, none) →
      copyingRepository.content 2 w1 =
        copyingRepository.store (CopyWorld.methods.GetState 2 w0)
          (copyingRepository.content 2 w0) := by
    intro w0 w1 h
    simp only [copyingService, copyingRepository, Prod.mk.injEq, and_true] at h
    subst h
    rfl
  have hfail : ∀ w0 w1 e, copyingService.Repository.Save 2 w0 = (w1, some e) →
      copyingRepository.content 2 w1 = copyingRepository.content 2 w0 := by
    intro w0 w1 e h
    simp [copyingService, copyingRepository] at h
  have hhandle : ∀ h w0, copyingRepository.content 2
        (copyingHandlers.IdempotentHandle h (copyingService.stateContext 2) w0).1 =
      copyingRepository.content 2 w0 :=
    fun h w0 => copyingHandlers_frame (copyingService.stateContext 2) h w0 2
  ⟨rfl, hok, hfail, hhandle, rfl, rfl,
    (Process_repository_content CopyWorld.methods copyingHandlers copyingService 2 2
      copyWorld _ _ _ rfl).2.2.2.2 (copyingRepository.content 2) copyingRepository.store
      hok hfail hhandle,
    rfl⟩

/-- Counterexample to C4 as stated: the first `Process` call of the test, on
`data1` with the empty repository, returns the error of `StepAHandler`; before
the call the repository holds nothing for the identity `1`, after it it holds
the record in state `stepA`. -/
theorem Process_repository_content_counterexample :
    InMemoryStateRepository.storedState testWorld "1" = none ∧
      (testService.Process FakeStateData.methods TestHandler.methods 1 0 testWorld).map
          (fun out => (out.2.1, InMemoryStateRepository.storedState out.1 "1")) =
        some (some (GoError.errorString "mock failure"), some "stepA") := by
  decide

/-! ## Successful runs of `Process` -/

/-- C5. Persist-after-transition: with a repository whose successful `Save`
leaves the current state of the record stored under its identity (`stored` is
the state the repository holds for the record), whenever
`StateService.Process` returns no error the stored state equals the in-memory
state of the record at return. -/
theorem Process_success_persisted (sd : StateData W P) (sh : StateHandler W P H)
    (s : StateService W P H) (fuel : Nat) (data : P) (w w2 : W) (log : List (Event P H))
    (stored : W → Option String)
    (hstore : ∀ w0 w1, s.Repository.Save data w0 = (w1, none) →
      stored w1 = some (sd.GetState data w1))
    (hrun : s.Process sd sh fuel data w = some (w2, none, log)) :
    stored w2 = some (sd.GetState data w2) := by
  rcases StateService.Process_inv sd sh s fuel data w _ hrun with
    ⟨w1, e1, _, hout⟩ | ⟨w1, r, hs, hr, hout⟩
  · simp at hout
  · simp only [Prod.mk.injEq] at hout
    obtain ⟨hw, he, _⟩ := hout
    rcases StateContext.Process_success_last sd sh (s.stateContext data) fuel w1 r hr he.symm
      with ⟨h1, _⟩ | ⟨w0, h2⟩
    · rw [hw, h1]
      exact hstore w w1 hs
    · rw [hw]
      exact hstore w0 r.1 h2

/-- Witness of C5: the `Process` call of the test on `data2`, which pauses in
`stepB`; the stored state is read through the identity of the record. -/
theorem Process_success_persisted_witness :
    (∀ w0 w1, testService.Repository.Save 1 w0 = (w1, none) →
        InMemoryStateRepository.storedState w1 (w1.deref 1).ID =
          some (FakeStateData.methods.GetState 1 w1)) ∧
      testService.Process FakeStateData.methods TestHandler.methods 3 1 testWorld =
        some ({ heap := [data1, { data2 with ShouldHang := false, State := "stepB" }, data3],
                repo := some [("2", 1)] },
          none,
          [Event.save 1 "stepA" none,
           Event.handle TestHandler.StepAHandler 1 "stepA" "stepB" false none,
           Event.save 1 "stepB" none,
           Event.handle TestHandler.StepBHandler 1 "stepB" "stepB" true none,
           Event.save 1 "stepB" none]) ∧
      InMemoryStateRepository.storedState
          { heap := [data1, { data2 with ShouldHang := false, State := "stepB" }, data3],
            repo := some [("2", 1)] }
          (TestWorld.deref
            { heap := [data1, { data2 with ShouldHang := false, State := "stepB" }, data3],
              repo := some [("2", 1)] } 1).ID =
        some (FakeStateData.methods.GetState 1
          { heap := [data1, { data2 with ShouldHang := false, State := "stepB" }, data3],
            repo := some [("2", 1)] }) :=
  have hstore : ∀ w0 w1, testService.Repository.Save 1 w0 = (w1, none) →
      InMemoryStateRepository.storedState w1 (w1.deref 1).ID =
        some (FakeStateData.methods.GetState 1 w1) := by
    intro w0 w1 h
    simp only [testService, InMemoryStateRepository.methods, InMemoryStateRepository.Save,
      Prod.mk.injEq, and_true] at h
    subst h
    simp only [InMemoryStateRepository.storedState, TestWorld.deref]
    rw [GoMap.get?_set_self]
    rfl
  ⟨hstore, rfl,
    Process_success_persisted FakeStateData.methods TestHandler.methods testService 3 1
      testWorld _ _ (fun w => InMemoryStateRepository.storedState w (w.deref 1).ID) hstore rfl⟩

/-- C6. A state without a handler is terminal: when the registry has no handler
for the current state of the record and `Save` succeeds (leaving the state of
the record as it is), `StateService.Process` saves the record once, invokes no
handler, returns no error, and the program state is the one that `Save`
returned, so the state of the record is unchanged. -/
theorem Process_no_handler_terminal (sd : StateData W P) (sh : StateHandler W P H)
    (s : StateService W P H) (fuel : Nat) (data : P) (w w1 : W)
    (hnone : (s.HandlerMap.index (sd.GetState data w)).Handler = none)
    (hsave : s.Repository.Save data w = (w1, none))
    (hstate : sd.GetState data w1 = sd.GetState data w) :
    s.Process sd sh (fuel + 1) data w =
        some (w1, none, [Event.save data (sd.GetState data w) none]) ∧
      sd.GetState data w1 = sd.GetState data w := by
  refine ⟨?_, hstate⟩
  have hh : (s.stateContext data).getHandler sd w1 = none := by
    simp only [StateContext.getHandler, StateService.stateContext, hstate]
    exact hnone
  simp [StateService.Process, hsave,
    StateContext.Process_no_handler sd sh (s.stateContext data) fuel w1 hh, saved]

/-- Witness of C6: a record of the test in state `success`, for which the test
registry has no entry. -/
theorem Process_no_handler_terminal_witness :
    (testService.HandlerMap.index (FakeStateData.methods.GetState 0
        { heap := [{ data3 with State := "success" }], repo := some [] })).Handler = none ∧
      testService.Repository.Save 0
          { heap := [{ data3 with State := "success" }], repo := some [] } =
        ({ heap := [{ data3 with State := "success" }], repo := some [("3", 0)] }, none) ∧
      FakeStateData.methods.GetState 0
          { heap := [{ data3 with State := "success" }], repo := some [("3", 0)] } =
        FakeStateData.methods.GetState 0
          { heap := [{ data3 with State := "success" }], repo := some [] } ∧
      (testService.Process FakeStateData.methods TestHandler.methods (0 + 1) 0
          { heap := [{ data3 with State := "success" }], repo := some [] } =
        some ({ heap := [{ data3 with State := "success" }], repo := some [("3", 0)] }, none,
          [Event.save 0 (FakeStateData.methods.GetState 0
            { heap := [{ data3 with State := "success" }], repo := some [] }) none]) ∧
      FakeStateData.methods.GetState 0
          { heap := [{ data3 with State := "success" }], repo := some [("3", 0)] } =
        FakeStateData.methods.GetState 0
          { heap := [{ data3 with State := "success" }], repo := some [] }) :=
  ⟨rfl, rfl, rfl,
    Process_no_handler_terminal FakeStateData.methods TestHandler.methods testService 0 0
      _ _ rfl rfl rfl⟩

/-! ## Errors abort the call -/

/-- C7. Handler errors abort the loop unchanged.  First part: when the handler
invoked by an iteration of `StateContext.Process` returns the error `e`, the
loop returns at once with exactly `e`, in the program state the handler left
and with that invocation as its only log entry (no `Save`, no other handler).
Second part: in every returning run, a handler invocation that returned an
error `e` is the last log entry (no `Save` and no handler invocation after
it) and the run returns exactly `e`. -/
theorem Process_handler_error_aborts (sd : StateData W P) (sh : StateHandler W P H)
    (s : StateContext W P H) :
    (∀ (fuel : Nat) (w w1 : W) (handler : H) (stop : Bool) (e : GoError),
        s.getHandler sd w = some handler →
        sh.IdempotentHandle handler s w = (w1, stop, some e) →
        s.Process sd sh (fuel + 1) w =
          some (w1, some e,
            [Event.handle handler s.Data (sd.GetState s.Data w) (sd.GetState s.Data w1) stop
              (some e)])) ∧
      (∀ (fuel : Nat) (w w2 : W) (err : Option GoError) (log pre post : List (Event P H))
          (h : H) (d : P) (b a : String) (stop : Bool) (e : GoError),
        s.Process sd sh fuel w = some (w2, err, log) →
        log = pre ++ Event.handle h d b a stop (some e) :: post →
        err = some e ∧ post = []) := by
  constructor
  · intro fuel w w1 handler stop e hh hr
    exact StateContext.Process_handler_error sd sh s fuel w w1 handler stop e hh hr
  · intro fuel w w2 err log pre post h d b a stop e hrun hlog
    exact StateContext.Process_error_last sd sh s fuel w _ hrun pre post _ e hlog rfl

/-- Witness of C7: the loop of the first `Process` call of the test on `data1`
(after the initial `Save`), where `StepAHandler` returns `mock failure`. -/
theorem Process_handler_error_aborts_witness :
    (testContext 0).getHandler FakeStateData.methods
        { heap := [data1, data2, data3], repo := some [("1", 0)] } =
        some TestHandler.StepAHandler ∧
      TestHandler.methods.IdempotentHandle TestHandler.StepAHandler (testContext 0)
          { heap := [data1, data2, data3], repo := some [("1", 0)] } =
        ({ heap := [{ data1 with ShouldFailure := false }, data2, data3],
           repo := some [("1", 0)] }, true, some (GoError.errorString "mock failure")) ∧
      (testContext 0).Process FakeStateData.methods TestHandler.methods (0 + 1)
          { heap := [data1, data2, data3], repo := some [("1", 0)] } =
        some ({ heap := [{ data1 with ShouldFailure := false }, data2, data3],
                repo := some [("1", 0)] },
          some (GoError.errorString "mock failure"),
          [Event.handle TestHandler.StepAHandler 0 "stepA" "stepA" true
            (some (GoError.errorString "mock failure"))]) ∧
      (some (GoError.errorString "mock failure") = some (GoError.errorString "mock failure") ∧
        ([] : List (Event Nat TestHandler)) = []) :=
  ⟨rfl, rfl,
    (Process_handler_error_aborts FakeStateData.methods TestHandler.methods
      (testContext 0)).1 0 _ _ _ _ _ rfl rfl,
    (Process_handler_error_aborts FakeStateData.methods TestHandler.methods
      (testContext 0)).2 1 { heap := [data1, data2, data3], repo := some [("1", 0)] } _ _ _
      [] [] TestHandler.StepAHandler 0 "stepA" "stepA" true _ rfl rfl⟩

/-- C8. Storage errors abort the call.  First part: when the initial `Save` of
`StateService.Process` returns the error `e`, `Process` returns exactly `e`
with that `Save` as its only log entry (no handler is invoked), whatever the
fuel.  Second part: when the `Save` that follows a handler invocation without
error returns `e`, the loop returns at once with exactly `e`, that `Save`
being the last log entry.  Third part: in every returning run of
`StateService.Process` the first log entry is the `Save` of the record in its
initial state, and a `Save` that returned an error `e` is the last log entry
(no handler invocation after it) and the run returns exactly `e`. -/
theorem Process_save_error_aborts (sd : StateData W P) (sh : StateHandler W P H)
    (s : StateService W P H) (data : P) :
    (∀ (fuel : Nat) (w w1 : W) (e : GoError),
        s.Repository.Save data w = (w1, some e) →
        s.Process sd sh fuel data w =
          some (w1, some e, [Event.save data (sd.GetState data w) (some e)])) ∧
      (∀ (fuel : Nat) (w w1 w2 : W) (handler : H) (stop : Bool) (e : GoError),
        (s.stateContext data).getHandler sd w = some handler →
        sh.IdempotentHandle handler (s.stateContext data) w = (w1, stop, none) →
        s.Repository.Save data w1 = (w2, some e) →
        (s.stateContext data).Process sd sh (fuel + 1) w =
          some (w2, some e,
            [Event.handle handler data (sd.GetState data w) (sd.GetState data w1) stop none,
             Event.save data (sd.GetState data w1) (some e)])) ∧
      (∀ (fuel : Nat) (w w2 : W) (err : Option GoError) (log : List (Event P H)),
        s.Process sd sh fuel data w = some (w2, err, log) →
        (∃ r rest, log = Event.save data (sd.GetState data w) r :: rest) ∧
        ∀ (pre post : List (Event P H)) (d : P) (st : String) (e : GoError),
          log = pre ++ Event.save d st (some e) :: post → err = some e ∧ post = []) := by
  refine ⟨?_, ?_, ?_⟩
  · intro fuel w w1 e hs
    simp [StateService.Process, hs, saved]
  · intro fuel w w1 w2 handler stop e hh hr hs
    exact StateContext.Process_save_error sd sh (s.stateContext data) fuel w w1 w2 handler
      stop e hh hr hs
  · intro fuel w w2 err log hrun
    rcases StateService.Process_inv sd sh s fuel data w _ hrun with
      ⟨w1, e1, _, hout⟩ | ⟨w1, r, _, hr, hout⟩
    · simp only [Prod.mk.injEq] at hout
      obtain ⟨_, he, hl⟩ := hout
      subst he hl
      refine ⟨⟨_, _, rfl⟩, ?_⟩
      intro pre post d st e hlog
      rcases List.cons_eq_append_iff.mp hlog with ⟨_, h2⟩ | ⟨pre2, _, h2⟩
      · simp only [saved, List.cons.injEq, Event.save.injEq] at h2
        obtain ⟨⟨_, _, h3⟩, h4⟩ := h2
        exact ⟨by rw [h3], h4⟩
      · simp at h2
    · simp only [Prod.mk.injEq] at hout
      obtain ⟨_, he, hl⟩ := hout
      subst he hl
      refine ⟨⟨_, _, rfl⟩, ?_⟩
      intro pre post d st e hlog
      rcases List.cons_eq_append_iff.mp hlog with ⟨_, h2⟩ | ⟨pre2, _, h2⟩
      · simp [saved] at h2
      · exact StateContext.Process_error_last sd sh (s.stateContext data) fuel w1 r hr
          pre2 post _ e h2 rfl

/-- Witness of C8: over `failingRepository`, the initial `Save` of `data2`
fails and `Process` returns its error; in the loop, the `Save` after
`StepAHandler` fails and the loop returns its error. -/
theorem Process_save_error_aborts_witness :
    failingService.Repository.Save 1 testWorld =
        (testWorld, some (GoError.errorString "storage failure")) ∧
      failingService.Process FakeStateData.methods TestHandler.methods 0 1 testWorld =
        some (testWorld, some (GoError.errorString "storage failure"),
          [Event.save 1 "stepA" (some (GoError.errorString "storage failure"))]) ∧
      (failingService.stateContext 1).Process FakeStateData.methods TestHandler.methods
          (0 + 1) testWorld =
        some ({ heap := [data1, { data2 with State := "stepB" }, data3], repo := some [] },
          some (GoError.errorString "storage failure"),
          [Event.handle TestHandler.StepAHandler 1 "stepA" "stepB" false none,
           Event.save 1 "stepB" (some (GoError.errorString "storage failure"))]) ∧
      ((∃ r rest, [Event.save 1 "stepA" (some (GoError.errorString "storage failure"))] =
          (Event.save 1 (FakeStateData.methods.GetState 1 testWorld) r :
            Event Nat TestHandler) :: rest) ∧
        ∀ (pre post : List (Event Nat TestHandler)) (d : Nat) (st : String) (e : GoError),
          [Event.save 1 "stepA" (some (GoError.errorString "storage failure"))] =
            pre ++ Event.save d st (some e) :: post →
          some (GoError.errorString "storage failure") = some e ∧ post = []) :=
  ⟨rfl,
    (Process_save_error_aborts FakeStateData.methods TestHandler.methods failingService
      1).1 0 testWorld testWorld _ rfl,
    (Process_save_error_aborts FakeStateData.methods TestHandler.methods failingService
      1).2.1 0 testWorld _ _ TestHandler.StepAHandler false _ rfl rfl rfl,
    (Process_save_error_aborts FakeStateData.methods TestHandler.methods failingService
      1).2.2 0 testWorld testWorld _ _ rfl⟩

/-- C9. Pause versus continue: when the handler invoked by an iteration of
`StateContext.Process` returns no error and the `Save` after it succeeds, then
with `shouldStop = true` the loop returns success at once, its log being that
invocation and that `Save` (no further handler, whatever the new state); with
`shouldStop = false` the run goes on as the loop started in the program state
`w2` after the `Save`: it returns success if the now-current state has no
handler, and otherwise its next log entry is the invocation, in `w2`, of the
handler registered for the now-current state. -/
theorem Process_pause_or_continue (sd : StateData W P) (sh : StateHandler W P H)
    (s : StateContext W P H) (fuel : Nat) (w w1 w2 : W) (handler : H) (stop : Bool)
    (hh : s.getHandler sd w = some handler)
    (hr : sh.IdempotentHandle handler s w = (w1, stop, none))
    (hs : s.repository.Save s.Data w1 = (w2, none)) :
    (stop = true →
        s.Process sd sh (fuel + 1) w =
          some (w2, none,
            [Event.handle handler s.Data (sd.GetState s.Data w) (sd.GetState s.Data w1) true
              none,
             Event.save s.Data (sd.GetState s.Data w1) none])) ∧
      (stop = false →
        s.Process sd sh (fuel + 1) w =
          (s.Process sd sh fuel w2).map (fun r =>
            (r.1, r.2.1,
              Event.handle handler s.Data (sd.GetState s.Data w) (sd.GetState s.Data w1)
                false none ::
              Event.save s.Data (sd.GetState s.Data w1) none :: r.2.2)) ∧
        (s.getHandler sd w2 = none →
          s.Process sd sh (fuel + 2) w =
            some (w2, none,
              [Event.handle handler s.Data (sd.GetState s.Data w) (sd.GetState s.Data w1)
                false none,
               Event.save s.Data (sd.GetState s.Data w1) none])) ∧
        (∀ (next : H) (out : Outcome W P H), s.getHandler sd w2 = some next →
          s.Process sd sh (fuel + 1) w = some out →
          out.2.2[2]? =
            some (Event.handle next s.Data (sd.GetState s.Data w2)
              (sd.GetState s.Data (sh.IdempotentHandle next s w2).1)
              (sh.IdempotentHandle next s w2).2.1 (sh.IdempotentHandle next s w2).2.2))) := by
  constructor
  · intro hstop
    subst hstop
    exact StateContext.Process_stop sd sh s fuel w w1 w2 handler hh hr hs
  · intro hstop
    subst hstop
    have hcont := fun n => StateContext.Process_continue sd sh s n w w1 w2 handler hh hr hs
    refine ⟨hcont fuel, ?_, ?_⟩
    · intro hnone
      rw [hcont (fuel + 1), StateContext.Process_no_handler sd sh s fuel w2 hnone]
      rfl
    · intro next out hnext hrun
      rw [hcont fuel] at hrun
      cases hrec : s.Process sd sh fuel w2 with
      | none => simp [hrec] at hrun
      | some r =>
        simp only [hrec, Option.map_some', Option.some.injEq] at hrun
        subst hrun
        cases fuel with
        | zero => simp [StateContext.Process] at hrec
        | succ n =>
          rcases h2 : sh.IdempotentHandle next s w2 with ⟨w3, stop2, err2⟩
          cases err2 with
          | some e =>
            rw [StateContext.Process_handler_error sd sh s n w2 w3 next stop2 e hnext h2] at hrec
            cases hrec
            rfl
          | none =>
            rcases h3 : s.repository.Save s.Data w3 with ⟨w4, err3⟩
            cases err3 with
            | some e =>
              rw [StateContext.Process_save_error sd sh s n w2 w3 w4 next stop2 e hnext h2 h3]
                at hrec
              cases hrec
              rfl
            | none =>
              cases stop2 with
              | true =>
                rw [StateContext.Process_stop sd sh s n w2 w3 w4 next hnext h2 h3] at hrec
                cases hrec
                rfl
              | false =>
                rw [StateContext.Process_continue sd sh s n w2 w3 w4 next hnext h2 h3] at hrec
                cases hrec2 : s.Process sd sh n w4 with
                | none => simp [hrec2] at hrec
                | some r2 =>
                  simp only [hrec2, Option.map_some', Option.some.injEq] at hrec
                  subst hrec
                  rfl

/-- Witness of C9: the loop of the `Process` call of the test on `data2`:
`StepAHandler` returns `(false, nil)`, the `Save` succeeds, and the next log
entry is the invocation of `StepBHandler`, the handler of the new state
`stepB`. -/
theorem Process_pause_or_continue_witness :
    (testContext 1).getHandler FakeStateData.methods testWorld =
        some TestHandler.StepAHandler ∧
      TestHandler.methods.IdempotentHandle TestHandler.StepAHandler (testContext 1)
          testWorld =
        ({ heap := [data1, { data2 with State := "stepB" }, data3], repo := some [] },
          false, none) ∧
      (testContext 1).repository.Save (testContext 1).Data
          { heap := [data1, { data2 with State := "stepB" }, data3], repo := some [] } =
        ({ heap := [data1, { data2 with State := "stepB" }, data3],
           repo := some [("2", 1)] }, none) ∧
      (testContext 1).getHandler FakeStateData.methods
          { heap := [data1, { data2 with State := "stepB" }, data3],
            repo := some [("2", 1)] } = some TestHandler.StepBHandler ∧
      (testContext 1).Process FakeStateData.methods TestHandler.methods (1 + 1) testWorld =
        some ({ heap := [data1, { data2 with ShouldHang := false, State := "stepB" }, data3],
                repo := some [("2", 1)] },
          none,
          [Event.handle TestHandler.StepAHandler 1 "stepA" "stepB" false none,
           Event.save 1 "stepB" none,
           Event.handle TestHandler.StepBHandler 1 "stepB" "stepB" true none,
           Event.save 1 "stepB" none]) ∧
      [Event.handle TestHandler.StepAHandler 1 "stepA" "stepB" false none,
        Event.save 1 "stepB" none,
        Event.handle TestHandler.StepBHandler 1 "stepB" "stepB" true none,
        Event.save 1 "stepB" none][2]? =
        some (Event.handle TestHandler.StepBHandler 1 "stepB" "stepB" true none) :=
  ⟨rfl, rfl, rfl, rfl, rfl,
    ((Process_pause_or_continue FakeStateData.methods TestHandler.methods (testContext 1) 1
      testWorld _ _ TestHandler.StepAHandler false rfl rfl rfl).2 rfl).2.2
      TestHandler.StepBHandler _ rfl rfl⟩

/-! ## The recovery sweep -/

/-- C10. Recovery is fail-fast: when `FindUnfinished` returns the records
`pre ++ r :: post`, `Process` on the records of `pre`, in order, returns no
error, and `Process` on `r` then returns the error `e`, `FindAndRecover`
returns exactly `e` in the program state in which that `Process` call
returned; its log is the log of those calls, every entry of which is about a
record of `pre` or about `r` (the records of `post` are neither saved nor
handled), and whatever of the program state (the state of a later record, its
stored copy) is out of reach of `Save` and of the handlers when they run on the
records of `pre` and on `r` is as it was when `FindUnfinished` returned. -/
theorem FindAndRecover_fail_fast (sd : StateData W P) (sh : StateHandler W P H)
    (s : StateService W P H) (fuel : Nat) (w w0 wi w2 : W) (pre post : List P) (r : P)
    (lp lr : List (Event P H)) (e : GoError)
    (hfind : s.Repository.FindUnfinished w = (w0, pre ++ r :: post, none))
    (hpre : ProcessedInOrder sd sh s fuel pre w0 wi lp)
    (hr : s.Process sd sh fuel r wi = some (w2, some e, lr)) :
    s.FindAndRecover sd sh fuel w = some (w2, some e, lp ++ lr) ∧
      (∀ ev ∈ lp ++ lr, ev.data ∈ pre ++ [r]) ∧
      ∀ {α : Type} (obs : W → α),
        (∀ d ∈ pre ++ [r], ∀ w3, obs (s.Repository.Save d w3).1 = obs w3) →
        (∀ d ∈ pre ++ [r], ∀ h w3,
          obs (sh.IdempotentHandle h (s.stateContext d) w3).1 = obs w3) →
        obs w2 = obs w0 := by
  obtain ⟨hdata, hframe⟩ := ProcessedInOrder.log_data_frame sd sh s fuel pre w0 wi lp hpre
  refine ⟨?_, ?_, ?_⟩
  · simp only [StateService.FindAndRecover, hfind]
    rw [StateService.recoverRecords_append sd sh s fuel pre (r :: post) w0 wi lp hpre]
    simp [StateService.recoverRecords, hr]
  · intro ev hev
    rcases List.mem_append.mp hev with h | h
    · exact List.mem_append_left _ (hdata ev h)
    · rw [StateService.Process_call_log_data sd sh s fuel r wi _ hr ev h]
      simp
  · intro α obs hsave hhandle
    have h1 := StateService.Process_call_frame sd sh s r obs (hsave r (by simp))
      (hhandle r (by simp)) fuel wi _ hr
    have h2 := hframe obs (fun d hd => hsave d (List.mem_append_left _ hd))
      (fun d hd => hhandle d (List.mem_append_left _ hd))
    exact h1.trans h2

/-- Witness of C10: a sweep over `sweepWorld`: `FindUnfinished` returns the
pointers 0, 1, 2; `Process` on 0 (`data2`) pauses in `stepB`; `Process` on 1
(`data1`) returns `mock failure`; `FindAndRecover` returns that error and
record 2 (`data3`) is still in `stepA`, in memory and in the repository. -/
theorem FindAndRecover_fail_fast_witness :
    testService.Repository.FindUnfinished sweepWorld = (sweepWorld, [0] ++ 1 :: [2], none) ∧
      ProcessedInOrder FakeStateData.methods TestHandler.methods testService 3 [0]
        sweepWorld
        { heap := [{ data2 with ShouldHang := false, State := "stepB" }, data1, data3],
          repo := some [("2", 0), ("1", 1), ("3", 2)] }
        ([Event.save 0 "stepA" none,
          Event.handle TestHandler.StepAHandler 0 "stepA" "stepB" false none,
          Event.save 0 "stepB" none,
          Event.handle TestHandler.StepBHandler 0 "stepB" "stepB" true none,
          Event.save 0 "stepB" none] ++ []) ∧
      testService.Process FakeStateData.methods TestHandler.methods 3 1
          { heap := [{ data2 with ShouldHang := false, State := "stepB" }, data1, data3],
            repo := some [("2", 0), ("1", 1), ("3", 2)] } =
        some ({ heap := [{ data2 with ShouldHang := false, State := "stepB" },
                         { data1 with ShouldFailure := false }, data3],
                repo := some [("2", 0), ("1", 1), ("3", 2)] },
          some (GoError.errorString "mock failure"),
          [Event.save 1 "stepA" none,
           Event.handle TestHandler.StepAHandler 1 "stepA" "stepA" true
             (some (GoError.errorString "mock failure"))]) ∧
      testService.FindAndRecover FakeStateData.methods TestHandler.methods 3 sweepWorld =
        some ({ heap := [{ data2 with ShouldHang := false, State := "stepB" },
                         { data1 with ShouldFailure := false }, data3],
                repo := some [("2", 0), ("1", 1), ("3", 2)] },
          some (GoError.errorString "mock failure"),
          ([Event.save 0 "stepA" none,
            Event.handle TestHandler.StepAHandler 0 "stepA" "stepB" false none,
            Event.save 0 "stepB" none,
            Event.handle TestHandler.StepBHandler 0 "stepB" "stepB" true none,
            Event.save 0 "stepB" none] ++ []) ++
          [Event.save 1 "stepA" none,
           Event.handle TestHandler.StepAHandler 1 "stepA" "stepA" true
             (some (GoError.errorString "mock failure"))]) :=
  ⟨rfl, ProcessedInOrder.cons 0 [] _ _ _ _ [] rfl (ProcessedInOrder.nil _), rfl,
    (FindAndRecover_fail_fast FakeStateData.methods TestHandler.methods testService 3
      sweepWorld sweepWorld _ _ [0] [2] 1 _ _ _ rfl
      (ProcessedInOrder.cons 0 [] _ _ _ _ [] rfl (ProcessedInOrder.nil _)) rfl).1⟩





/-! ## The state and the graph of the registry -/

/-- C11 (amended). State stays inside a registry all of whose destinations are
keys (`hclosed`): for a record whose state is a key of the registry, after any
`TransitTo` that returned no error the state is still a key, and so it is
after any returning `StateService.Process` run whose handlers change the state
only through `TransitTo` (`honly`), `Save` leaving the state as it is.
(`hset`: a `TransitTo(B)` that returned no error leaves the record in state
`B`.) -/
theorem state_stays_in_closed_registry (sd : StateData W P) (sh : StateHandler W P H)
    (s : StateService W P H) (data : P)
    (hclosed : ∀ A B, Edge s.HandlerMap A B → B ∈ s.HandlerMap.keys)
    (hset : ∀ B w, ((s.stateContext data).TransitTo sd B w).2 = none →
      sd.GetState data ((s.stateContext data).TransitTo sd B w).1 = B) :
    (∀ (B : String) (w : W), sd.GetState data w ∈ s.HandlerMap.keys →
        ((s.stateContext data).TransitTo sd B w).2 = none →
        sd.GetState data ((s.stateContext data).TransitTo sd B w).1 ∈ s.HandlerMap.keys) ∧
      (∀ (fuel : Nat) (w w2 : W) (err : Option GoError) (log : List (Event P H)),
        (∀ w0, sd.GetState data (s.Repository.Save data w0).1 = sd.GetState data w0) →
        (∀ h w0, ∃ n, TransitRun sd (s.stateContext data) n w0
          (sh.IdempotentHandle h (s.stateContext data) w0).1) →
        sd.GetState data w ∈ s.HandlerMap.keys →
        s.Process sd sh fuel data w = some (w2, err, log) →
        sd.GetState data w2 ∈ s.HandlerMap.keys) := by
  constructor
  · intro B w _ hok
    rw [hset B w hok]
    exact hclosed _ B (StateContext.TransitTo_ok_edge sd (s.stateContext data) B w hok)
  · intro fuel w w2 err log hsave honly hkey hrun
    have hstep : ∀ A B, Relation.ReflTransGen (Edge s.HandlerMap) A B →
        A ∈ s.HandlerMap.keys → B ∈ s.HandlerMap.keys := by
      intro A B hAB
      induction hAB with
      | refl => exact id
      | tail _ hedge _ => exact fun _ => hclosed _ _ hedge
    have hrel := StateService.Process_call_state_rel sd sh s data
      (fun A B => A ∈ s.HandlerMap.keys → B ∈ s.HandlerMap.keys)
      (fun _ => id) (fun _ _ _ h1 h2 h => h2 (h1 h)) hsave
      (fun h w0 => by
        obtain ⟨n, hn⟩ := honly h w0
        exact hstep _ _ (TransitRun.path sd (s.stateContext data) hset n w0 _ hn).1)
      fuel w _ hrun
    exact hrel hkey

/-- Witness of C11: the test handlers over `closedHandlerMap`; `data3` goes from
`stepA` to `success`, which is a key of that registry. -/
theorem state_stays_in_closed_registry_witness :
    (∀ A B, Edge closedService.HandlerMap A B → B ∈ closedService.HandlerMap.keys) ∧
      (∀ B w, ((closedService.stateContext 2).TransitTo FakeStateData.methods B w).2 = none →
        FakeStateData.methods.GetState 2
          ((closedService.stateContext 2).TransitTo FakeStateData.methods B w).1 = B) ∧
      (∀ w0, FakeStateData.methods.GetState 2 (closedService.Repository.Save 2 w0).1 =
        FakeStateData.methods.GetState 2 w0) ∧
      (∀ h w0, ∃ n, TransitRun FakeStateData.methods (closedService.stateContext 2) n w0
        (TestHandler.methods.IdempotentHandle h (closedService.stateContext 2) w0).1) ∧
      FakeStateData.methods.GetState 2 testWorld ∈ closedService.HandlerMap.keys ∧
      closedService.Process FakeStateData.methods TestHandler.methods 3 2 testWorld =
        some ({ heap := [data1, data2, { data3 with State := "success" }],
                repo := some [("3", 2)] },
          none,
          [Event.save 2 "stepA" none,
           Event.handle TestHandler.StepAHandler 2 "stepA" "stepB" false none,
           Event.save 2 "stepB" none,
           Event.handle TestHandler.StepBHandler 2 "stepB" "success" false none,
           Event.save 2 "success" none]) ∧
      FakeStateData.methods.GetState 2
          { heap := [data1, data2, { data3 with State := "success" }],
            repo := some [("3", 2)] } ∈ closedService.HandlerMap.keys :=
  have hset : ∀ B w,
      ((closedService.stateContext 2).TransitTo FakeStateData.methods B w).2 = none →
      FakeStateData.methods.GetState 2
        ((closedService.stateContext 2).TransitTo FakeStateData.methods B w).1 = B :=
    TransitTo_test_state (closedService.stateContext 2) rfl
  ⟨closedHandlerMap_closed, hset, fun _ => rfl,
    TestHandler_transit_only (closedService.stateContext 2), by decide, rfl,
    (state_stays_in_closed_registry FakeStateData.methods TestHandler.methods closedService 2
      closedHandlerMap_closed hset).2 3 testWorld _ _ _ (fun _ => rfl)
      (TestHandler_transit_only (closedService.stateContext 2)) (by decide) rfl⟩

/-- Counterexample to C11 as stated: in the registry of the test, `stepB` is a
key and `TransitTo("success")` from `stepB` returns no error, yet `success`
is not a key; likewise `Process` on `data3` (state `stepA`, a key) returns no
error with the record in state `success`. -/
theorem state_stays_in_closed_registry_counterexample :
    "stepB" ∈ testService.HandlerMap.keys ∧
      FakeStateData.methods.GetState 0
          { heap := [{ data3 with State := "stepB" }], repo := some [] } = "stepB" ∧
      ((testContext 0).TransitTo FakeStateData.methods "success"
          { heap := [{ data3 with State := "stepB" }], repo := some [] }).2 = none ∧
      FakeStateData.methods.GetState 0
          ((testContext 0).TransitTo FakeStateData.methods "success"
            { heap := [{ data3 with State := "stepB" }], repo := some [] }).1 = "success" ∧
      "success" ∉ testService.HandlerMap.keys ∧
      FakeStateData.methods.GetState 2 testWorld = "stepA" ∧
      "stepA" ∈ testService.HandlerMap.keys ∧
      (testService.Process FakeStateData.methods TestHandler.methods 3 2 testWorld).map
          (fun out => (FakeStateData.methods.GetState 2 out.1, out.2.1)) =
        some ("success", none) := by
  decide

/-! ## The scenarios of the test -/

/-- C12. Reference scenario of the test: for `data1` (created in state `stepA`,
both flags set), with the registry, handlers and repository of the test and
any fuel from the stated bound on, the first `Process` call returns the error
of `StepAHandler` and leaves the state at `stepA`; the second `Process` call
returns no error and leaves the state at `stepB`, stored as `stepB`; a
following `FindAndRecover` returns no error and leaves the record in state
`success`. -/
theorem reference_scenario (k : Nat) :
    testService.Process FakeStateData.methods TestHandler.methods (1 + k) 0 testWorld =
        some ({ heap := [{ data1 with ShouldFailure := false }, data2, data3],
                repo := some [("1", 0)] },
          some (GoError.errorString "mock failure"),
          [Event.save 0 "stepA" none,
           Event.handle TestHandler.StepAHandler 0 "stepA" "stepA" true
             (some (GoError.errorString "mock failure"))]) ∧
      FakeStateData.methods.GetState 0
          { heap := [{ data1 with ShouldFailure := false }, data2, data3],
            repo := some [("1", 0)] } = "stepA" ∧
      testService.Process FakeStateData.methods TestHandler.methods (2 + k) 0
          { heap := [{ data1 with ShouldFailure := false }, data2, data3],
            repo := some [("1", 0)] } =
        some ({ heap := [{ data1 with ShouldFailure := false, ShouldHang := false,
                                      State := "stepB" }, data2, data3],
                repo := some [("1", 0)] },
          none,
          [Event.save 0 "stepA" none,
           Event.handle TestHandler.StepAHandler 0 "stepA" "stepB" false none,
           Event.save 0 "stepB" none,
           Event.handle TestHandler.StepBHandler 0 "stepB" "stepB" true none,
           Event.save 0 "stepB" none]) ∧
      FakeStateData.methods.GetState 0
          { heap := [{ data1 with ShouldFailure := false, ShouldHang := false,
                                  State := "stepB" }, data2, data3],
            repo := some [("1", 0)] } = "stepB" ∧
      InMemoryStateRepository.storedState
          { heap := [{ data1 with ShouldFailure := false, ShouldHang := false,
                                  State := "stepB" }, data2, data3],
            repo := some [("1", 0)] } "1" = some "stepB" ∧
      testService.FindAndRecover FakeStateData.methods TestHandler.methods (2 + k)
          { heap := [{ data1 with ShouldFailure := false, ShouldHang := false,
                                  State := "stepB" }, data2, data3],
            repo := some [("1", 0)] } =
        some ({ heap := [{ data1 with ShouldFailure := false, ShouldHang := false,
                                      State := "success" }, data2, data3],
                repo := some [("1", 0)] },
          none,
          [Event.save 0 "stepB" none,
           Event.handle TestHandler.StepBHandler 0 "stepB" "success" false none,
           Event.save 0 "success" none]) ∧
      FakeStateData.methods.GetState 0
          { heap := [{ data1 with ShouldFailure := false, ShouldHang := false,
                                  State := "success" }, data2, data3],
            repo := some [("1", 0)] } = "success" :=
  ⟨StateService.Process_call_fuel_mono _ _ _ 1 k _ _ _ rfl, rfl,
    StateService.Process_call_fuel_mono _ _ _ 2 k _ _ _ rfl, rfl, rfl,
    StateService.FindAndRecover_fuel_mono _ _ _ 2 k _ _ rfl, rfl⟩

/-- C13. Idempotent recovery on the reference workflow: for every combination
of the failure and hang flags on a record created in state `stepA`, re-running
`Process` on the record after each failed or paused call ends, after one call
plus one per flag set (so at most three calls), with a call that returns no
error and leaves the record in state `success`: the final state and error of a
single `Process` call on a record with both flags cleared.  This holds for any
fuel from 3 on. -/
theorem idempotent_recovery (shouldFailure shouldHang : Bool) (k : Nat) :
    (reProcess (3 + k) 3 (flagWorld shouldFailure shouldHang)).map
        (fun r => (FakeStateData.methods.GetState 0 r.1, r.2.1, r.2.2)) =
        some ("success", none, 1 + shouldFailure.toNat + shouldHang.toNat) ∧
      1 + shouldFailure.toNat + shouldHang.toNat ≤ 3 ∧
      (testService.Process FakeStateData.methods TestHandler.methods (3 + k) 0
          (flagWorld false false)).map
        (fun out => (FakeStateData.methods.GetState 0 out.1, out.2.1)) =
        some ("success", none) := by
  refine ⟨?_, ?_, ?_⟩
  · cases shouldFailure <;> cases shouldHang <;>
      (rw [reProcess_fuel_eq 3 k 3 _ (by decide)]; decide)
  · cases shouldFailure <;> cases shouldHang <;> decide
  · rw [StateService.Process_call_fuel_eq _ _ _ 3 k 0 _ (by decide)]
    decide

/-! ## The order of the log -/

/-- C14. Persistence ordering: in the log of any returning run of
`StateService.Process`, every handler invocation directly follows a successful
`Save` of the record, and every handler invocation that returned no error is
directly followed by a `Save` of the record; hence no two handler invocations
are adjacent. -/
theorem Process_log_alternates (sd : StateData W P) (sh : StateHandler W P H)
    (s : StateService W P H) (fuel : Nat) (data : P) (w w2 : W) (err : Option GoError)
    (log : List (Event P H))
    (hrun : s.Process sd sh fuel data w = some (w2, err, log)) :
    (∀ (pre post : List (Event P H)) (ev : Event P H),
        log = pre ++ ev :: post → ev.isHandle = true →
        (∃ pre2 st, pre = pre2 ++ [Event.save data st none]) ∧
        (ev.err = none → ∃ st r post2, post = Event.save data st r :: post2)) ∧
      (∀ (pre post : List (Event P H)) (ev1 ev2 : Event P H),
        log = pre ++ ev1 :: ev2 :: post → ¬ (ev1.isHandle = true ∧ ev2.isHandle = true)) := by
  have hfirst : ∀ (pre post : List (Event P H)) (ev : Event P H),
      log = pre ++ ev :: post → ev.isHandle = true →
      (∃ pre2 st, pre = pre2 ++ [Event.save data st none]) ∧
      (ev.err = none → ∃ st r post2, post = Event.save data st r :: post2) := by
    intro pre post ev hlog hev
    rcases StateService.Process_inv sd sh s fuel data w _ hrun with
      ⟨w1, e1, _, hout⟩ | ⟨w1, r, _, hr, hout⟩
    · simp only [Prod.mk.injEq] at hout
      obtain ⟨_, _, hl⟩ := hout
      rw [hl] at hlog
      rcases List.cons_eq_append_iff.mp hlog with ⟨_, h2⟩ | ⟨pre2, _, h2⟩
      · simp only [List.cons.injEq] at h2
        obtain ⟨h3, _⟩ := h2
        subst h3
        simp [saved, Event.isHandle] at hev
      · simp at h2
    · simp only [Prod.mk.injEq] at hout
      obtain ⟨_, _, hl⟩ := hout
      rw [hl] at hlog
      rcases List.cons_eq_append_iff.mp hlog with ⟨_, h2⟩ | ⟨pre2, hp2, h2⟩
      · simp only [List.cons.injEq] at h2
        obtain ⟨h3, _⟩ := h2
        subst h3
        simp [saved, Event.isHandle] at hev
      · obtain ⟨h5, h6⟩ := StateContext.Process_log_order sd sh (s.stateContext data) fuel w1 r
          hr pre2 post ev h2 hev
        refine ⟨?_, h6⟩
        rcases h5 with h7 | ⟨pre4, st, h7⟩
        · refine ⟨[], sd.GetState data w, ?_⟩
          rw [hp2, h7]
          rfl
        · refine ⟨saved sd data w none :: pre4, st, ?_⟩
          rw [hp2, h7]
          rfl
  refine ⟨hfirst, ?_⟩
  intro pre post ev1 ev2 hlog hboth
  obtain ⟨_, hnext⟩ := hfirst pre (ev2 :: post) ev1 hlog hboth.1
  obtain ⟨hprev, _⟩ := hfirst (pre ++ [ev1]) post ev2 (by rw [hlog]; simp) hboth.2
  obtain ⟨pre2, st, hp⟩ := hprev
  have hev1 : ev1 = Event.save data st none := by
    have := List.append_inj' hp rfl
    simpa using this.2
  rw [hev1] at hboth
  simp [Event.isHandle] at hboth

/-- Witness of C14: the `Process` call of the test on `data2`. -/
theorem Process_log_alternates_witness :
    testService.Process FakeStateData.methods TestHandler.methods 3 1 testWorld =
        some ({ heap := [data1, { data2 with ShouldHang := false, State := "stepB" }, data3],
                repo := some [("2", 1)] },
          none,
          [Event.save 1 "stepA" none,
           Event.handle TestHandler.StepAHandler 1 "stepA" "stepB" false none,
           Event.save 1 "stepB" none,
           Event.handle TestHandler.StepBHandler 1 "stepB" "stepB" true none,
           Event.save 1 "stepB" none]) ∧
      ((∃ pre2 st, [Event.save 1 "stepA" none,
            Event.handle TestHandler.StepAHandler 1 "stepA" "stepB" false none,
            Event.save 1 "stepB" none] =
          pre2 ++ [(Event.save 1 st none : Event Nat TestHandler)]) ∧
        ((Event.handle TestHandler.StepBHandler 1 "stepB" "stepB" true none :
            Event Nat TestHandler).err = none →
          ∃ st r post2, [(Event.save 1 "stepB" none : Event Nat TestHandler)] =
            Event.save 1 st r :: post2)) :=
  ⟨rfl,
    (Process_log_alternates FakeStateData.methods TestHandler.methods testService 3 1
      testWorld _ _ _ rfl).1
      [Event.save 1 "stepA" none,
       Event.handle TestHandler.StepAHandler 1 "stepA" "stepB" false none,
       Event.save 1 "stepB" none]
      [Event.save 1 "stepB" none]
      (Event.handle TestHandler.StepBHandler 1 "stepB" "stepB" true none) rfl rfl⟩

/-! ## The recovery sweep as a whole -/

/-- C15. Recovery sweep outcome.  `FindAndRecover` is the sweep in the words of
the specification (`FindAndRecover_spec`): when `FindUnfinished` fails it
returns that error, with an empty log (no record saved or handled) and the
program state `FindUnfinished` left; otherwise it is `Process` on each
returned record once, in the returned order, stopping at the first error; and
it returns no error exactly when every one of those `Process` calls returns no
error. -/
theorem FindAndRecover_outcome (sd : StateData W P) (sh : StateHandler W P H)
    (s : StateService W P H) (fuel : Nat) (w : W) :
    s.FindAndRecover sd sh fuel w = s.FindAndRecover_spec sd sh fuel w ∧
      (∀ (w1 : W) (records : List P) (e : GoError),
        s.Repository.FindUnfinished w = (w1, records, some e) →
        s.FindAndRecover sd sh fuel w = some (w1, some e, [])) ∧
      (∀ (w1 w2 : W) (records : List P) (log : List (Event P H)),
        s.Repository.FindUnfinished w = (w1, records, none) →
        (s.FindAndRecover sd sh fuel w = some (w2, none, log) ↔
          ProcessedInOrder sd sh s fuel records w1 w2 log)) := by
  refine ⟨?_, ?_, ?_⟩
  · unfold StateService.FindAndRecover StateService.FindAndRecover_spec
    rcases hf : s.Repository.FindUnfinished w with ⟨w1, records, err⟩
    cases err with
    | some e => rfl
    | none =>
      simp only
      rw [sweep_fold_eq sd sh s fuel records w1 []]
      cases s.recoverRecords sd sh fuel records w1 <;> simp
  · intro w1 records e hf
    simp [StateService.FindAndRecover, hf]
  · intro w1 w2 records log hf
    simp only [StateService.FindAndRecover, hf]
    exact StateService.recoverRecords_ok_iff sd sh s fuel records w1 w2 log

/-- Witness of C15: the `FindAndRecover` call that ends the test, in the
program state the three `Process` calls of the test leave: `FindUnfinished`
returns `data1` and `data2`, both are processed without error, `data1` ends in
`stepB` and `data2` in `success`; and `FindAndRecover` over
`failingRepository` returns the error of `FindUnfinished` with an empty log. -/
theorem FindAndRecover_outcome_witness :
    testService.Repository.FindUnfinished processedWorld = (processedWorld, [0, 1], none) ∧
      testService.FindAndRecover FakeStateData.methods TestHandler.methods 3 processedWorld =
        some (recoveredWorld, none,
          [Event.save 0 "stepA" none,
           Event.handle TestHandler.StepAHandler 0 "stepA" "stepB" false none,
           Event.save 0 "stepB" none,
           Event.handle TestHandler.StepBHandler 0 "stepB" "stepB" true none,
           Event.save 0 "stepB" none,
           Event.save 1 "stepB" none,
           Event.handle TestHandler.StepBHandler 1 "stepB" "success" false none,
           Event.save 1 "success" none]) ∧
      ProcessedInOrder FakeStateData.methods TestHandler.methods testService 3 [0, 1]
        processedWorld recoveredWorld
        [Event.save 0 "stepA" none,
         Event.handle TestHandler.StepAHandler 0 "stepA" "stepB" false none,
         Event.save 0 "stepB" none,
         Event.handle TestHandler.StepBHandler 0 "stepB" "stepB" true none,
         Event.save 0 "stepB" none,
         Event.save 1 "stepB" none,
         Event.handle TestHandler.StepBHandler 1 "stepB" "success" false none,
         Event.save 1 "success" none] ∧
      FakeStateData.methods.GetState 0 recoveredWorld = "stepB" ∧
      FakeStateData.methods.GetState 1 recoveredWorld = "success" ∧
      failingService.Repository.FindUnfinished testWorld =
        (testWorld, [], some (GoError.errorString "storage failure")) ∧
      failingService.FindAndRecover FakeStateData.methods TestHandler.methods 3 testWorld =
        some (testWorld, some (GoError.errorString "storage failure"), []) :=
  ⟨rfl, rfl,
    ((FindAndRecover_outcome FakeStateData.methods TestHandler.methods testService 3
      processedWorld).2.2 processedWorld recoveredWorld [0, 1] _ rfl).mp rfl,
    rfl, rfl, rfl,
    (FindAndRecover_outcome FakeStateData.methods TestHandler.methods failingService 3
      testWorld).2.1 testWorld [] _ rfl⟩

/-! ## Paths in the registry, unknown states -/

/-- C16. Transitions follow the declared graph: when the handlers change the
state of the record only through `TransitTo` (`honly`), after any returning
run of `StateService.Process`, successful or failed, the final state of the
record is reachable from its initial state by a path, possibly empty, of
edges `A -> B` with `B` a key of `registry[A].CanTransitTo`.  (`hset`: a
`TransitTo(B)` that returned no error leaves the record in state `B`;
`hsave`: `Save` leaves the state of the record as it is.) -/
theorem Process_follows_graph (sd : StateData W P) (sh : StateHandler W P H)
    (s : StateService W P H) (fuel : Nat) (data : P) (w w2 : W) (err : Option GoError)
    (log : List (Event P H))
    (hset : ∀ B w0, ((s.stateContext data).TransitTo sd B w0).2 = none →
      sd.GetState data ((s.stateContext data).TransitTo sd B w0).1 = B)
    (hsave : ∀ w0, sd.GetState data (s.Repository.Save data w0).1 = sd.GetState data w0)
    (honly : ∀ h w0, ∃ n, TransitRun sd (s.stateContext data) n w0
      (sh.IdempotentHandle h (s.stateContext data) w0).1)
    (hrun : s.Process sd sh fuel data w = some (w2, err, log)) :
    Relation.ReflTransGen (Edge s.HandlerMap) (sd.GetState data w) (sd.GetState data w2) :=
  StateService.Process_call_state_rel sd sh s data
    (Relation.ReflTransGen (Edge s.HandlerMap))
    (fun _ => Relation.ReflTransGen.refl) (fun _ _ _ h1 h2 => h1.trans h2) hsave
    (fun h w0 => by
      obtain ⟨n, hn⟩ := honly h w0
      exact (TransitRun.path sd (s.stateContext data) hset n w0 _ hn).1)
    fuel w _ hrun

/-- Witness of C16: the run of the test on `data3`, from `stepA` over `stepB`
to `success`, and the failed run on `data1`, which stays in `stepA`. -/
theorem Process_follows_graph_witness :
    (∀ B w0, ((testService.stateContext 2).TransitTo FakeStateData.methods B w0).2 = none →
        FakeStateData.methods.GetState 2
          ((testService.stateContext 2).TransitTo FakeStateData.methods B w0).1 = B) ∧
      (∀ w0, FakeStateData.methods.GetState 2 (testService.Repository.Save 2 w0).1 =
        FakeStateData.methods.GetState 2 w0) ∧
      (∀ h w0, ∃ n, TransitRun FakeStateData.methods (testService.stateContext 2) n w0
        (TestHandler.methods.IdempotentHandle h (testService.stateContext 2) w0).1) ∧
      testService.Process FakeStateData.methods TestHandler.methods 3 2 testWorld =
        some ({ heap := [data1, data2, { data3 with State := "success" }],
                repo := some [("3", 2)] },
          none,
          [Event.save 2 "stepA" none,
           Event.handle TestHandler.StepAHandler 2 "stepA" "stepB" false none,
           Event.save 2 "stepB" none,
           Event.handle TestHandler.StepBHandler 2 "stepB" "success" false none,
           Event.save 2 "success" none]) ∧
      Relation.ReflTransGen (Edge testService.HandlerMap)
        (FakeStateData.methods.GetState 2 testWorld)
        (FakeStateData.methods.GetState 2
          { heap := [data1, data2, { data3 with State := "success" }],
            repo := some [("3", 2)] }) :=
  ⟨TransitTo_test_state (testService.stateContext 2) rfl, fun _ => rfl,
    TestHandler_transit_only (testService.stateContext 2), rfl,
    Process_follows_graph FakeStateData.methods TestHandler.methods testService 3 2 testWorld
      _ _ _ (TransitTo_test_state (testService.stateContext 2) rfl) (fun _ => rfl)
      (TestHandler_transit_only (testService.stateContext 2)) rfl⟩

/-- C17. Unknown current state is safe and inert: when the current state of the
record is not a key of the registry (the nil registry included), the
descriptor looked up is the zero value, with a nil destination set and a nil
handler; so `TransitTo(B)` returns the `IllegalTransitError` for every target
`B` and leaves the program state, hence the state of the record, as it was,
and `StateContext.Process` returns no error with an empty log (no handler
invoked, nothing saved), for any fuel but none. -/
theorem unknown_state_inert (sd : StateData W P) (sh : StateHandler W P H)
    (s : StateContext W P H) (w : W)
    (hunknown : sd.GetState s.Data w ∉ s.stateHandlerMap.keys) :
    (s.stateHandlerMap.index (sd.GetState s.Data w)).CanTransitTo = none ∧
      (s.stateHandlerMap.index (sd.GetState s.Data w)).Handler = none ∧
      (∀ B : String, s.TransitTo sd B w =
        (w, some (GoError.IllegalTransitError (sd.GetState s.Data w) B))) ∧
      (∀ fuel : Nat, s.Process sd sh (fuel + 1) w = some (w, none, [])) := by
  have hidx : s.stateHandlerMap.index (sd.GetState s.Data w) = default := by
    unfold GoMap.index
    rw [GoMap.get?_of_not_mem_keys _ _ hunknown]
    rfl
  refine ⟨by rw [hidx]; rfl, by rw [hidx]; rfl, ?_, ?_⟩
  · intro B
    unfold StateContext.TransitTo
    simp only [hidx]
    rfl
  · intro fuel
    apply StateContext.Process_no_handler
    unfold StateContext.getHandler
    rw [hidx]
    rfl

/-- Witness of C17: a record of the test in state `success`, which is not a key
of the test registry. -/
theorem unknown_state_inert_witness :
    FakeStateData.methods.GetState (testContext 2).Data recoveredWorld ∉
        (testContext 2).stateHandlerMap.keys ∧
      (testContext 2).TransitTo FakeStateData.methods "stepA" recoveredWorld =
        (recoveredWorld, some (GoError.IllegalTransitError "success" "stepA")) ∧
      (testContext 2).Process FakeStateData.methods TestHandler.methods (0 + 1)
          recoveredWorld = some (recoveredWorld, none, []) :=
  ⟨by decide,
    (unknown_state_inert FakeStateData.methods TestHandler.methods (testContext 2)
      recoveredWorld (by decide)).2.2.1 "stepA",
    (unknown_state_inert FakeStateData.methods TestHandler.methods (testContext 2)
      recoveredWorld (by decide)).2.2.2 0⟩

/-! ## Termination -/

/-- C18. Termination on acyclic workflows: when the edges of the registry form
an acyclic graph (`hacyclic`) and every handler invocation that returns
`(false, nil)` has changed the state of the record through `TransitTo` only,
with at least one call that returned no error (`hmove`), then
`StateContext.Process` returns, with any fuel above the number of registry
states that have a handler, after at most that many handler invocations.
(`hset`: a `TransitTo(B)` that returned no error leaves the record in state
`B`; `hsave`: `Save` leaves the state of the record as it is.) -/
theorem Process_terminates_acyclic (sd : StateData W P) (sh : StateHandler W P H)
    (s : StateContext W P H) (w : W) (k : Nat)
    (hacyclic : ∀ A, ¬ Relation.TransGen (Edge s.stateHandlerMap) A A)
    (hset : ∀ B w0, (s.TransitTo sd B w0).2 = none →
      sd.GetState s.Data (s.TransitTo sd B w0).1 = B)
    (hsave : ∀ w0, sd.GetState s.Data (s.repository.Save s.Data w0).1 = sd.GetState s.Data w0)
    (hmove : ∀ h w0, (sh.IdempotentHandle h s w0).2 = (false, none) →
      ∃ n, 0 < n ∧ TransitRun sd s n w0 (sh.IdempotentHandle h s w0).1) :
    ∃ out, s.Process sd sh ((handlerStates s.stateHandlerMap).length + 1 + k) w = some out ∧
      handleCount out.2.2 ≤ (handlerStates s.stateHandlerMap).length := by
  have hmove2 : ∀ h w0, (sh.IdempotentHandle h s w0).2 = (false, none) →
      Relation.TransGen (Edge s.stateHandlerMap) (sd.GetState s.Data w0)
        (sd.GetState s.Data (sh.IdempotentHandle h s w0).1) := by
    intro h w0 hres
    obtain ⟨n, hn, hrun⟩ := hmove h w0 hres
    exact (TransitRun.path sd s hset n w0 _ hrun).2 hn
  obtain ⟨out, hout, hcount⟩ := StateContext.Process_bounded sd sh s hacyclic hsave hmove2
    (handlerStates s.stateHandlerMap).length (handlerStates s.stateHandlerMap) w rfl
    ((List.nodup_dedup _).filter _)
    (fun X _ hsome => mem_handlerStates s.stateHandlerMap X hsome)
  exact ⟨out, StateContext.Process_fuel_mono sd sh s k _ w out hout, hcount⟩

/-- Witness of C18: the loop of the test on `data3`; the test registry has the
two states `stepA` and `stepB` with a handler, and the run makes two handler
invocations. -/
theorem Process_terminates_acyclic_witness :
    (∀ A, ¬ Relation.TransGen (Edge (testContext 2).stateHandlerMap) A A) ∧
      (∀ B w0, ((testContext 2).TransitTo FakeStateData.methods B w0).2 = none →
        FakeStateData.methods.GetState (testContext 2).Data
          ((testContext 2).TransitTo FakeStateData.methods B w0).1 = B) ∧
      (∀ w0, FakeStateData.methods.GetState (testContext 2).Data
          ((testContext 2).repository.Save (testContext 2).Data w0).1 =
        FakeStateData.methods.GetState (testContext 2).Data w0) ∧
      (∀ h w0, (TestHandler.methods.IdempotentHandle h (testContext 2) w0).2 = (false, none) →
        ∃ n, 0 < n ∧ TransitRun FakeStateData.methods (testContext 2) n w0
          (TestHandler.methods.IdempotentHandle h (testContext 2) w0).1) ∧
      handlerStates (testContext 2).stateHandlerMap = ["stepA", "stepB"] ∧
      (testContext 2).Process FakeStateData.methods TestHandler.methods 3 testWorld =
        some ({ heap := [data1, data2, { data3 with State := "success" }],
                repo := some [("3", 2)] },
          none,
          [Event.handle TestHandler.StepAHandler 2 "stepA" "stepB" false none,
           Event.save 2 "stepB" none,
           Event.handle TestHandler.StepBHandler 2 "stepB" "success" false none,
           Event.save 2 "success" none]) ∧
      (∃ out, (testContext 2).Process FakeStateData.methods TestHandler.methods
          ((handlerStates (testContext 2).stateHandlerMap).length + 1 + 0) testWorld =
          some out ∧
        handleCount out.2.2 ≤ (handlerStates (testContext 2).stateHandlerMap).length) :=
  ⟨testHandlerMap_acyclic, TransitTo_test_state (testContext 2) rfl, fun _ => rfl,
    TestHandler_moves (testContext 2), by decide, rfl,
    Process_terminates_acyclic FakeStateData.methods TestHandler.methods (testContext 2)
      testWorld 0 testHandlerMap_acyclic (TransitTo_test_state (testContext 2) rfl)
      (fun _ => rfl) (TestHandler_moves (testContext 2))⟩

end persistablestatemachine

/-!
# The hard-coded variant: what `AfterLoad` loads
-/

namespace statepattern

open persistablestatemachine (GoMap GoError)

/-- Assigning again under the only key of a one-entry map replaces the value. -/
theorem set_single (k : String) (d v : StateDesc) :
    GoMap.set (some [(k, d)]) k v = some [(k, v)] := by
  simp [GoMap.set, List.lookup]

/-- The loop of `AfterLoad`, once the map has its one entry, keeps one entry
under the key `t.State`. -/
theorem AfterLoad_loop (order : List (String × StateDesc)) :
    ∀ (st : String) (d : StateDesc),
      ∃ d2, order.foldl
          (fun t1 entry => { t1 with stateHandlerMap := t1.stateHandlerMap.set t1.State entry.2 })
          ({ State := st, stateHandlerMap := some [(st, d)] } : Transfer) =
        { State := st, stateHandlerMap := some [(st, d2)] } ∧
        (d2 = d ∨ d2 ∈ order.map Prod.snd) := by
  induction order with
  | nil => intro st d; exact ⟨d, rfl, Or.inl rfl⟩
  | cons entry rest ih =>
    intro st d
    rw [List.foldl_cons]
    simp only [set_single]
    obtain ⟨d2, h1, h2⟩ := ih st entry.2
    refine ⟨d2, h1, Or.inr ?_⟩
    rcases h2 with h | h
    · rw [h]; simp
    · simp [h]

/-- After `AfterLoad` over a non-empty order the map has the single key
`t.State`, with a descriptor of the order as its value. -/
theorem AfterLoad_map (order : List (String × StateDesc)) (t : Transfer)
    (hne : order ≠ []) :
    ∃ d, d ∈ order.map Prod.snd ∧
      Transfer.AfterLoad order t = { State := t.State, stateHandlerMap := some [(t.State, d)] } := by
  cases order with
  | nil => exact absurd rfl hne
  | cons entry rest =>
    unfold Transfer.AfterLoad
    rw [List.foldl_cons]
    have h0 : GoMap.set (some ([] : List (String × StateDesc))) t.State entry.2 =
        some [(t.State, entry.2)] := by
      simp [GoMap.set, List.lookup]
    simp only [h0]
    obtain ⟨d2, h1, h2⟩ := AfterLoad_loop rest t.State entry.2
    refine ⟨d2, ?_, h1⟩
    rcases h2 with h | h
    · rw [h]; simp
    · simp [h]

/-- C19 on the code: whatever the order in which `range stateHandlers` yields
the entries of the table, after `AfterLoad` the map of the `Transfer` has the
single key `t.State` (the table has four keys, so the two differ), and after
a `TransitTo` to another state that returned no error every further
`TransitTo` returns `ErrIllegalStateTransfer`; in particular a `Transfer`
loaded in state `init` cannot transit to `auditPass` and then to
`deductSuccess`. -/
theorem AfterLoad_single_key (order : List (String × StateDesc)) (t : Transfer)
    (hperm : order.Perm stateHandlers.entries) :
    (Transfer.AfterLoad order t).stateHandlerMap.keys = [t.State] ∧
      (Transfer.AfterLoad order t).stateHandlerMap ≠ stateHandlers ∧
      (∀ B C : String, B ≠ t.State →
        ((Transfer.AfterLoad order t).TransitTo B).2 = none →
        (((Transfer.AfterLoad order t).TransitTo B).1.TransitTo C).2 =
          some ErrIllegalStateTransfer) ∧
      (t.State = "init" →
        ¬ (((Transfer.AfterLoad order t).TransitTo "auditPass").2 = none ∧
          (((Transfer.AfterLoad order t).TransitTo "auditPass").1.TransitTo
            "deductSuccess").2 = none)) := by
  have hne : order ≠ [] := by
    intro hc
    rw [hc] at hperm
    have := hperm.length_eq
    simp [stateHandlers, GoMap.entries] at this
  obtain ⟨d, _, hload⟩ := AfterLoad_map order t hne
  have hsecond : ∀ B C : String, B ≠ t.State →
      ((Transfer.AfterLoad order t).TransitTo B).2 = none →
      (((Transfer.AfterLoad order t).TransitTo B).1.TransitTo C).2 =
        some ErrIllegalStateTransfer := by
    intro B C hB hok
    rw [hload] at hok ⊢
    unfold Transfer.TransitTo at hok
    simp only at hok
    cases hex : (GoMap.index (some [(t.State, d)]) t.State).CanTransferTo.exist B
    · simp [hex] at hok
    · simp only [Transfer.TransitTo, hex, Bool.not_true, Bool.false_eq_true, if_false]
      have hBne : (B == t.State) = false := by simpa using hB
      have hidx : GoMap.index (some [(t.State, d)]) B = (default : StateDesc) := by
        simp [GoMap.index, GoMap.get?, List.lookup, hBne]
      simp only [hidx]
      rfl
  refine ⟨?_, ?_, hsecond, ?_⟩
  · rw [hload]
    rfl
  · rw [hload]
    intro hc
    have hk := congrArg GoMap.keys hc
    simp [GoMap.keys, GoMap.entries, stateHandlers] at hk
  · intro hinit hboth
    have h2 := hsecond "auditPass" "deductSuccess" (by rw [hinit]; decide) hboth.1
    rw [h2] at hboth
    simp at hboth

/-- Witness of C19: a `Transfer` in state `init`, the table ranged over in the
order of its declaration: the loaded map holds, under `init`, the descriptor
of `deductSuccess`, and already `TransitTo("auditPass")` returns
`ErrIllegalStateTransfer`, though the table allows `init -> auditPass`; ranged
over in the reverse order, `TransitTo("auditPass")` returns no error and the
following `TransitTo("deductSuccess")` returns `ErrIllegalStateTransfer`,
though the table allows `auditPass -> deductSuccess`. -/
theorem AfterLoad_single_key_witness :
    stateHandlers.entries.Perm stateHandlers.entries ∧
      (Transfer.AfterLoad stateHandlers.entries
          { State := "init", stateHandlerMap := none }).stateHandlerMap.keys = ["init"] ∧
      stateHandlers.keys = ["init", "auditing", "auditPass", "deductSuccess"] ∧
      ((Transfer.AfterLoad stateHandlers.entries
          { State := "init", stateHandlerMap := none }).TransitTo "auditPass").2 =
        some ErrIllegalStateTransfer ∧
      ((stateHandlers.index "init").CanTransferTo.exist "auditPass") = true ∧
      ((Transfer.AfterLoad stateHandlers.entries.reverse
          { State := "init", stateHandlerMap := none }).TransitTo "auditPass").2 = none ∧
      (((Transfer.AfterLoad stateHandlers.entries.reverse
          { State := "init", stateHandlerMap := none }).TransitTo "auditPass").1.TransitTo
            "deductSuccess").2 = some ErrIllegalStateTransfer ∧
      ((stateHandlers.index "auditPass").CanTransferTo.exist "deductSuccess") = true :=
  ⟨List.Perm.refl _,
    (AfterLoad_single_key stateHandlers.entries { State := "init", stateHandlerMap := none }
      (List.Perm.refl _)).1,
    by decide, by decide, by decide, by decide, by decide, by decide⟩

end statepattern
